import Mathlib

/-!
Verification of the memento knowledge-graph memory store.

The development shallowly embeds the JavaScript sources:
scoring-utils.js (relevance scoring), the SQLite graph repository
(sqlite/graph-repo.js), the knowledge-graph manager
(knowledge-graph-manager.js) and the context manager's bounded BFS
(context-manager.js).  JavaScript numbers are modelled by `Rat` where the
code only performs field operations, by `Real` where `Math.exp` or
`Math.log10` enter (those transcendental functions are passed as explicit
function parameters so that every definition stays executable), and a JS
`NaN` is modelled by `Option` (`none` = NaN).  Database tables are lists of
rows; SQL statements become list operations mirroring the exact queries.
-/

namespace Memento

/-! ## scoring-utils.js: importance weights -/

/-- The `ImportanceLevel` enumeration values of scoring-utils.js. -/
def importanceLevels : List String :=
  ["critical", "important", "normal", "temporary", "deprecated"]

/-- `IMPORTANCE_WEIGHTS` of scoring-utils.js, as an association list
(JS object lookup returns `undefined`, i.e. `none`, on a missing key). -/
def importanceWeights : List (String × ℚ) :=
  [("critical", 2), ("important", 3/2), ("normal", 1),
   ("temporary", 7/10), ("deprecated", 3/10)]

/-- `getImportanceScore` of scoring-utils.js: a falsy or unknown importance
falls back to the weight of `normal` (= 1). -/
def getImportanceScore (importance : Option String) : ℚ :=
  match importance with
  | none => 1
  | some s =>
    match importanceWeights.lookup s with
    | some w => w
    | none => 1

/-! ## scoring-utils.js: contextual score -/

/-- The `contextual` block of `DEFAULT_SCORING_CONFIG`. -/
structure ContextualConfig where
  maxDistance : ℚ
  nearWeight : ℚ
  decayRate : ℚ
deriving DecidableEq

/-- Default contextual configuration: maxDistance 3, nearWeight 1.5,
decayRate 0.2. -/
def defaultContextual : ContextualConfig :=
  { maxDistance := 3, nearWeight := 3/2, decayRate := 1/5 }

/-- `getContextualScore` of scoring-utils.js.  A `null`/`undefined`
distance is `none`. -/
def getContextualScore (distance : Option ℚ) (cfg : ContextualConfig) : ℚ :=
  match distance with
  | none => 1
  | some d =>
    if cfg.maxDistance < d then 1
    else if d = 0 then cfg.nearWeight
    else max (cfg.nearWeight - d * cfg.decayRate) (1/2)

/-! ## scoring-utils.js: popularity score -/

/-- The `popularity` block of `DEFAULT_SCORING_CONFIG`. -/
structure PopularityConfig where
  scaleFactor : ℚ
  baseScore : ℚ
deriving DecidableEq

/-- Default popularity configuration: scaleFactor 0.1, baseScore 1.0. -/
def defaultPopularity : PopularityConfig :=
  { scaleFactor := 1/10, baseScore := 1 }

/-- `getPopularityScore` of scoring-utils.js.  `l10` is the program's
`Math.log10`, passed as a parameter. -/
def getPopularityScore (l10 : ℚ → ℝ) (accessCount : ℚ)
    (cfg : PopularityConfig) : ℝ :=
  if accessCount ≤ 0 then (cfg.baseScore : ℝ)
  else (cfg.baseScore : ℝ) + l10 (1 + accessCount) * (cfg.scaleFactor : ℝ)

/-! ## scoring-utils.js: temporal score -/

/-- The `temporal` block of `DEFAULT_SCORING_CONFIG`. -/
structure TemporalConfig where
  halfLifeDays : ℚ
  recencyThreshold : ℚ
  recencyBoost : ℚ
deriving DecidableEq

/-- Default temporal configuration: half-life 30 days, recency threshold
7 days, recency boost 1.2. -/
def defaultTemporal : TemporalConfig :=
  { halfLifeDays := 30, recencyThreshold := 7, recencyBoost := 6/5 }

/-- Milliseconds per day (`1000 * 60 * 60 * 24`). -/
def msPerDay : ℚ := 86400000

/-- `getTemporalScore` of scoring-utils.js (the revision at
src/src/scoring-utils.js lines 90-111, which has no invalid-date guard).

Timestamps are epoch milliseconds.  `createdAt = none` models a missing or
invalid (`NaN`) created date; `lastAccessed = none` models JS
`null`/`undefined`, `some none` an invalid date string, `some (some t)` a
valid timestamp.  The result `none` models a `NaN` score: in JS a `NaN`
relevant date propagates through `Math.exp` and `Math.min` to the returned
value.  `e` is the program's `Math.exp`, passed as a parameter; the code
uses the literal constant `0.693` as its approximation of `ln 2`. -/
def getTemporalScore (e : ℚ → ℝ) (now : ℚ) (createdAt : Option ℚ)
    (lastAccessed : Option (Option ℚ)) (cfg : TemporalConfig) : Option ℝ :=
  let created := createdAt
  let accessed : Option ℚ :=
    match lastAccessed with
    | none => created
    | some d => d
  let relevantDate : Option ℚ :=
    match accessed, created with
    | some a, some c => if c < a then some a else some c
    | _, _ => created
  match relevantDate with
  | none => none
  | some r =>
    let ageInDays : ℚ := (now - r) / msPerDay
    let decayFactor : ℝ := e (-(693/1000) * ageInDays / cfg.halfLifeDays)
    let boosted : Bool :=
      match lastAccessed with
      | some (some la) => decide ((now - la) / msPerDay < cfg.recencyThreshold)
      | _ => false
    some (min (decayFactor * (if boosted then (cfg.recencyBoost : ℝ) else 1))
              (cfg.recencyBoost : ℝ))

/-! ## scoring-utils.js: scoring configuration and profiles -/

/-- The `weights` block of a scoring configuration. -/
structure Weights where
  temporal : ℚ
  popularity : ℚ
  contextual : ℚ
  importance : ℚ
deriving DecidableEq

/-- Default weights: temporal 0.4, popularity 0.2, contextual 0.2,
importance 0.2. -/
def defaultWeights : Weights :=
  { temporal := 2/5, popularity := 1/5, contextual := 1/5, importance := 1/5 }

/-- A partial override of the four weights (a JS object whose fields may be
absent; spreading it over the defaults keeps the absent fields). -/
structure WeightsOverride where
  temporal : Option ℚ := none
  popularity : Option ℚ := none
  contextual : Option ℚ := none
  importance : Option ℚ := none
deriving DecidableEq

/-- A partial override of the temporal block. -/
structure TemporalOverride where
  halfLifeDays : Option ℚ := none
  recencyThreshold : Option ℚ := none
  recencyBoost : Option ℚ := none
deriving DecidableEq

/-- A partial override of the popularity block. -/
structure PopularityOverride where
  scaleFactor : Option ℚ := none
  baseScore : Option ℚ := none
deriving DecidableEq

/-- A partial override of the contextual block. -/
structure ContextualOverride where
  maxDistance : Option ℚ := none
  nearWeight : Option ℚ := none
  decayRate : Option ℚ := none
deriving DecidableEq

/-- A custom scoring configuration override (argument of
`createScoringConfig`); every block and field may be absent. -/
structure ScoringOverride where
  weights : WeightsOverride := {}
  temporal : TemporalOverride := {}
  popularity : PopularityOverride := {}
  contextual : ContextualOverride := {}
deriving DecidableEq

/-- A scoring profile as accepted by `scoreSearchResults`
(search-context-manager.js): either a named preset string such as
`'balanced'` — a string has no `weights`/`temporal`/... fields, so
spreading them is a no-op — or a custom override object. -/
inductive ScoringProfile where
  | named (s : String)
  | custom (o : ScoringOverride)
deriving DecidableEq

/-- A full scoring configuration. -/
structure ScoringConfig where
  weights : Weights
  temporal : TemporalConfig
  popularity : PopularityConfig
  contextual : ContextualConfig
deriving DecidableEq

/-- `DEFAULT_SCORING_CONFIG` of scoring-utils.js. -/
def defaultScoringConfig : ScoringConfig :=
  { weights := defaultWeights, temporal := defaultTemporal,
    popularity := defaultPopularity, contextual := defaultContextual }

/-- Field-by-field merge of a weights override over given weights
(JS object spread of the override over the defaults). -/
def mergeWeights (d : Weights) (o : WeightsOverride) : Weights :=
  { temporal := o.temporal.getD d.temporal,
    popularity := o.popularity.getD d.popularity,
    contextual := o.contextual.getD d.contextual,
    importance := o.importance.getD d.importance }

/-- Field-by-field merge of a temporal override. -/
def mergeTemporal (d : TemporalConfig) (o : TemporalOverride) : TemporalConfig :=
  { halfLifeDays := o.halfLifeDays.getD d.halfLifeDays,
    recencyThreshold := o.recencyThreshold.getD d.recencyThreshold,
    recencyBoost := o.recencyBoost.getD d.recencyBoost }

/-- Field-by-field merge of a popularity override. -/
def mergePopularity (d : PopularityConfig) (o : PopularityOverride) :
    PopularityConfig :=
  { scaleFactor := o.scaleFactor.getD d.scaleFactor,
    baseScore := o.baseScore.getD d.baseScore }

/-- Field-by-field merge of a contextual override. -/
def mergeContextual (d : ContextualConfig) (o : ContextualOverride) :
    ContextualConfig :=
  { maxDistance := o.maxDistance.getD d.maxDistance,
    nearWeight := o.nearWeight.getD d.nearWeight,
    decayRate := o.decayRate.getD d.decayRate }

/-- `createScoringConfig` of scoring-utils.js: each block of the custom
configuration is spread over the corresponding default block.  A named
preset string contributes no fields, so the result is the default
configuration (this is exactly what `createScoringConfig('balanced')`
evaluates to in JS). -/
def createScoringConfig (profile : ScoringProfile) : ScoringConfig :=
  match profile with
  | .named _ => defaultScoringConfig
  | .custom o =>
    { weights := mergeWeights defaultWeights o.weights,
      temporal := mergeTemporal defaultTemporal o.temporal,
      popularity := mergePopularity defaultPopularity o.popularity,
      contextual := mergeContextual defaultContextual o.contextual }

/-! ## scoring-utils.js: combined relevance score -/

/-- Entity facts handed to `calculateRelevanceScore` (createdAt,
lastAccessed, accessCount, importance). -/
structure EntityFacts where
  createdAt : Option ℚ
  lastAccessed : Option (Option ℚ)
  accessCount : Option ℚ
  importance : Option String

/-- The component scores of `calculateRelevanceScore`. -/
structure ScoreComponents where
  temporal : Option ℝ
  popularity : ℝ
  contextual : ℚ
  importance : ℚ

/-- Result of `calculateRelevanceScore`: final score plus components.
The final score is `none` (NaN) exactly when the temporal component is. -/
structure ScoreData where
  finalScore : Option ℝ
  components : ScoreComponents

/-- `calculateRelevanceScore` of scoring-utils.js: computes the four
component scores and combines them as the weighted sum with the
configuration's weights (`entity.accessCount || 0` is the `getD 0`). -/
def calculateRelevanceScore (e l10 : ℚ → ℝ) (now : ℚ) (ent : EntityFacts)
    (contextDistance : Option ℚ) (cfg : ScoringConfig) : ScoreData :=
  let temporalScore := getTemporalScore e now ent.createdAt ent.lastAccessed cfg.temporal
  let popularityScore := getPopularityScore l10 (ent.accessCount.getD 0) cfg.popularity
  let contextualScore := getContextualScore contextDistance cfg.contextual
  let importanceScore := getImportanceScore ent.importance
  { finalScore :=
      temporalScore.map (fun t =>
        t * (cfg.weights.temporal : ℝ) +
        popularityScore * (cfg.weights.popularity : ℝ) +
        (contextualScore : ℝ) * (cfg.weights.contextual : ℝ) +
        (importanceScore : ℝ) * (cfg.weights.importance : ℝ)),
    components :=
      { temporal := temporalScore, popularity := popularityScore,
        contextual := contextualScore, importance := importanceScore } }

/-! ## Database state (SQLite backend tables) -/

/-- A row of the `entities` table (`id`, `name`, `entityType`). -/
structure EntityRow where
  id : ℕ
  name : String
  entityType : String
deriving DecidableEq

/-- A row of the `observations` table; `importance` has SQL default
`'normal'`.  `created_at`, `last_accessed`, `access_count` and `tags` play
no role in the claims under verification and are omitted. -/
structure ObsRow where
  id : ℕ
  entityId : ℕ
  content : String
  importance : String := "normal"
deriving DecidableEq

/-- A row of the `relations` table; uniqueness is on the
(from_id, to_id, relationType) triple. -/
structure RelRow where
  id : ℕ
  fromId : ℕ
  toId : ℕ
  relationType : String
deriving DecidableEq

/-- A row of the `obs_vec` table, keyed by `observation_id` and carrying a
denormalized `entity_id` and the embedding vector (a list of floats). -/
structure VecRow where
  observationId : ℕ
  entityId : ℕ
  embedding : List ℚ
deriving DecidableEq

/-- The database state: the four tables, the auto-increment counters, and
the vector dimension declared by the schema (`FLOAT[1024]` in the sqlite
`vec0` virtual table, `vector(1024)` in the PostgreSQL schema; 1024 in the
current generation).  sqlite-vec and pgvector reject at write time any
vector whose dimension differs from the declared column width. -/
structure DB where
  nextEntityId : ℕ := 1
  nextObsId : ℕ := 1
  nextRelId : ℕ := 1
  entities : List EntityRow := []
  obs : List ObsRow := []
  rels : List RelRow := []
  vecs : List VecRow := []
  dim : ℕ := 1024
deriving DecidableEq

/-- Row predicate for `WHERE entity_id = ? AND content = ?`. -/
def obsMatches (eid : ℕ) (c : String) (o : ObsRow) : Bool :=
  o.entityId == eid && o.content == c

/-- Row predicate for `WHERE from_id = ? AND to_id = ? AND relationType = ?`. -/
def relMatches (f t : ℕ) (ty : String) (r : RelRow) : Bool :=
  r.fromId == f && r.toId == t && r.relationType == ty

/-- An observation with this (entity, content) pair is stored. -/
def ObsPresent (db : DB) (eid : ℕ) (c : String) : Prop :=
  ∃ o ∈ db.obs, o.entityId = eid ∧ o.content = c

/-- Number of stored observation rows for an (entity, content) pair. -/
def obsCount (db : DB) (eid : ℕ) (c : String) : ℕ :=
  (db.obs.filter (obsMatches eid c)).length

/-- A relation row with this (from, to, type) triple is stored. -/
def RelPresent (db : DB) (f t : ℕ) (ty : String) : Prop :=
  ∃ r ∈ db.rels, r.fromId = f ∧ r.toId = t ∧ r.relationType = ty

/-- Number of stored relation rows for a (from, to, type) triple. -/
def relCount (db : DB) (f t : ℕ) (ty : String) : ℕ :=
  (db.rels.filter (relMatches f t ty)).length

/-- Well-formedness invariants maintained by the schema: unique entity ids
and names, positive ids (SQLite `lastID` starts at 1, so a stored id is
never JS-falsy), unique observation ids and unique (entity_id, content)
pairs, unique relation triples, counters strictly above every stored id,
and the observation-to-entity foreign key. -/
structure WF (db : DB) : Prop where
  entIdsNodup : db.entities.Pairwise (fun a b => a.id ≠ b.id)
  entNamesNodup : db.entities.Pairwise (fun a b => a.name ≠ b.name)
  entIdsPos : ∀ e ∈ db.entities, 0 < e.id
  entIdsLt : ∀ e ∈ db.entities, e.id < db.nextEntityId
  nextEntPos : 0 < db.nextEntityId
  obsIdsNodup : db.obs.Pairwise (fun a b => a.id ≠ b.id)
  obsPairsNodup : db.obs.Pairwise (fun a b =>
    (a.entityId, a.content) ≠ (b.entityId, b.content))
  obsIdsLt : ∀ o ∈ db.obs, o.id < db.nextObsId
  obsEntFK : ∀ o ∈ db.obs, ∃ e ∈ db.entities, o.entityId = e.id
  relTriplesNodup : db.rels.Pairwise (fun a b =>
    (a.fromId, a.toId, a.relationType) ≠ (b.fromId, b.toId, b.relationType))
  relEntFK : ∀ r ∈ db.rels,
    (∃ e ∈ db.entities, r.fromId = e.id) ∧ (∃ e ∈ db.entities, r.toId = e.id)

/-! ## sqlite/graph-repo.js: repository operations -/

namespace SqliteGraphRepository

/-- `getEntityId`: `SELECT id FROM entities WHERE name = ?`. -/
def getEntityId (db : DB) (name : String) : Option ℕ :=
  (db.entities.find? (fun e => e.name == name)).map (·.id)

/-- `createEntity`: `INSERT INTO entities(name, entityType) VALUES(?, ?)`,
returning `lastID`. -/
def createEntity (db : DB) (name entityType : String) : DB × ℕ :=
  ({ db with
      entities := db.entities ++ [{ id := db.nextEntityId, name := name, entityType := entityType }],
      nextEntityId := db.nextEntityId + 1 },
   db.nextEntityId)

/-- `getOrCreateEntityId`: look up by name, create on a miss. -/
def getOrCreateEntityId (db : DB) (name entityType : String) : DB × ℕ :=
  match getEntityId db name with
  | some eid => (db, eid)
  | none => createEntity db name entityType

/-- `insertObservation`: `INSERT OR IGNORE INTO observations(entity_id,
content)`; when the unique (entity_id, content) constraint ignores the
insert, the existing row's id is selected back. -/
def insertObservation (db : DB) (eid : ℕ) (c : String) : DB × Bool × Option ℕ :=
  match db.obs.find? (obsMatches eid c) with
  | some o => (db, false, some o.id)
  | none =>
    ({ db with
        obs := db.obs ++ [{ id := db.nextObsId, entityId := eid, content := c }],
        nextObsId := db.nextObsId + 1 },
     true, some db.nextObsId)

/-- `INSERT OR REPLACE INTO obs_vec(...)` for one row: replaces the row
with the same `observation_id` if present, appends otherwise. -/
def upsertVec (vecs : List VecRow) (r : VecRow) : List VecRow :=
  if vecs.any (fun v => v.observationId == r.observationId) then
    vecs.map (fun v => if v.observationId == r.observationId then r else v)
  else vecs ++ [r]

/-- The per-row inserts of the vector batch, inside the transaction.  The
`obs_vec` column is declared with a fixed dimension (`FLOAT[1024]` /
`vector(1024)`), so the database raises on a row whose embedding has a
different length; the first failing row aborts the loop. -/
def applyVecRows (dim : ℕ) (vecs : List VecRow) : List VecRow → Except String (List VecRow)
  | [] => .ok vecs
  | r :: rs =>
    if r.embedding.length = dim then applyVecRows dim (upsertVec vecs r) rs
    else .error "vector dimension mismatch"

/-- `insertObservationVectors`: empty batches return immediately; otherwise
all rows are written inside `BEGIN TRANSACTION ... COMMIT`, and any failure
rolls the whole batch back (the returned state is the original one) and
re-raises the error (`some errorMessage`). -/
def insertObservationVectors (db : DB) (rows : List VecRow) : DB × Option String :=
  if rows.isEmpty then (db, none)
  else
    match applyVecRows db.dim db.vecs rows with
    | .ok vecs => ({ db with vecs := vecs }, none)
    | .error e => (db, some e)

/-- `createRelation`: `INSERT OR IGNORE INTO relations(from_id, to_id,
relationType)`, returning `Boolean(result.changes)`. -/
def createRelation (db : DB) (f t : ℕ) (ty : String) : DB × Bool :=
  match db.rels.find? (relMatches f t ty) with
  | some _ => (db, false)
  | none =>
    ({ db with
        rels := db.rels ++ [{ id := db.nextRelId, fromId := f, toId := t, relationType := ty }],
        nextRelId := db.nextRelId + 1 },
     true)

/-- `setImportance`: `UPDATE observations SET importance = ? WHERE
entity_id = ?`, returning `changes > 0`. -/
def setImportance (db : DB) (eid : ℕ) (importance : String) : DB × Bool :=
  ({ db with
      obs := db.obs.map (fun o => if o.entityId == eid then { o with importance := importance } else o) },
   db.obs.any (fun o => o.entityId == eid))

/-- `SELECT name FROM entities WHERE id = ?` (used by the JOIN in
`openNodes` and `readGraph`). -/
def entName (db : DB) (eid : ℕ) : Option String :=
  (db.entities.find? (fun e => e.id == eid)).map (·.name)

/-- An entity of `openNodes` output (name, type, observation contents). -/
structure OpenedEntity where
  name : String
  entityType : String
  observations : List String
deriving DecidableEq

/-- A relation of `openNodes` output, with endpoint names resolved by the
JOIN against `entities`. -/
structure OpenedRel where
  fromName : String
  toName : String
  relationType : String
deriving DecidableEq

/-- The JOIN mapping of a relation row to its named form; `none` when an
endpoint id has no entity row (the SQL inner join drops such rows). -/
def namedRel (db : DB) (r : RelRow) : Option OpenedRel :=
  match entName db r.fromId, entName db r.toId with
  | some f, some t => some { fromName := f, toName := t, relationType := r.relationType }
  | _, _ => none

/-- `openNodes` of sqlite/graph-repo.js: selects the entities whose name is
in the requested list, their observations, and only those relations whose
`from_id` AND `to_id` are both among the selected entity ids. -/
def openNodes (db : DB) (names : List String) : List OpenedEntity × List OpenedRel :=
  if names.isEmpty then ([], [])
  else
    let ents := db.entities.filter (fun e => names.contains e.name)
    if ents.isEmpty then ([], [])
    else
      let ids := ents.map (·.id)
      let rels := db.rels.filter (fun r => ids.contains r.fromId && ids.contains r.toId)
      (ents.map (fun e =>
        { name := e.name, entityType := e.entityType,
          observations := (db.obs.filter (fun o => o.entityId == e.id)).map (·.content) }),
       rels.filterMap (namedRel db))

/-- The ids of the entities `openNodes names` opens (the rows whose name is
among the requested names). -/
def openedIds (db : DB) (names : List String) : List ℕ :=
  (db.entities.filter (fun e => names.contains e.name)).map (·.id)

end SqliteGraphRepository

/-- Name-level observation presence: the entity named `n` exists and
already stores `c`. -/
def ObsPresentName (db : DB) (n c : String) : Prop :=
  ∃ eid, SqliteGraphRepository.getEntityId db n = some eid ∧ ObsPresent db eid c

/-- Name-level stored-observation count for entity `n` and content `c`
(0 when `n` does not resolve). -/
def obsCountName (db : DB) (n c : String) : ℕ :=
  match SqliteGraphRepository.getEntityId db n with
  | some eid => obsCount db eid c
  | none => 0

/-! ## knowledge-graph-manager.js: manager operations -/

namespace KnowledgeGraphManager

open SqliteGraphRepository

/-- One `addObservations` result entry. -/
structure AddObsResult where
  entityName : String
  addedObservations : List String
deriving DecidableEq

/-- The inner `for (const content of contents)` loop of `addObservations`:
sequentially attempts the idempotent insert and collects
`{observationId, content}` for each content that was actually inserted
(with a non-null observation id). -/
def insertObsLoop (db : DB) (eid : ℕ) : List String → DB × List (ℕ × String)
  | [] => (db, [])
  | c :: cs =>
    let step := insertObservation db eid c
    let rest := insertObsLoop step.1 eid cs
    match step.2.1, step.2.2 with
    | true, some oid => (rest.1, (oid, c) :: rest.2)
    | _, _ => (rest.1, rest.2)

/-- One entry of `addObservations` (knowledge-graph-manager.js lines
64-87): resolve-or-create the entity with type `'Unknown'`, insert each
content idempotently, embed exactly the newly inserted contents
(`embedTexts` is invoked only when the inserted list is non-empty; the
third component logs each `embedTexts` invocation with its argument list),
and persist the vectors in one `insertObservationVectors` batch keyed by
observation id.  The final component carries a re-raised batch error. -/
def addObsEntry (embed : String → List ℚ) (db : DB) (entityName : String)
    (contents : List String) : DB × AddObsResult × List (List String) × Option String :=
  let resolved := getOrCreateEntityId db entityName "Unknown"
  let inserted := insertObsLoop resolved.1 resolved.2 contents
  if inserted.2.isEmpty then
    (inserted.1, { entityName := entityName, addedObservations := [] }, [], none)
  else
    let texts := inserted.2.map (·.2)
    let embeddings := texts.map embed
    let vectorRows := List.zipWith (fun (p : ℕ × String) emb =>
      { observationId := p.1, entityId := resolved.2, embedding := emb : VecRow }) inserted.2 embeddings
    let vecres := insertObservationVectors inserted.1 vectorRows
    (vecres.1, { entityName := entityName, addedObservations := texts }, [texts], vecres.2)

/-- `addObservations`: processes the entries sequentially; an error thrown
by a vector batch aborts the call (`.error`), otherwise the per-entity
results are returned in order.  The last component concatenates the
`embedTexts` invocation logs. -/
def addObservations (embed : String → List ℚ) (db : DB) :
    List (String × List String) → DB × Except String (List AddObsResult) × List (List String)
  | [] => (db, .ok [], [])
  | (n, cs) :: rest =>
    let step := addObsEntry embed db n cs
    match step.2.2.2 with
    | some err => (step.1, .error err, step.2.2.1)
    | none =>
      let next := addObservations embed step.1 rest
      (next.1, next.2.1.map (step.2.1 :: ·), step.2.2.1 ++ next.2.2)

/-- A relation input (`{from, to, relationType}` at the name level). -/
structure RelInput where
  fromName : String
  toName : String
  relationType : String
deriving DecidableEq

/-- The loop body of `createRelations` for one input relation:
resolve-or-create both endpoints with type `'Unknown'`, then idempotently
insert the triple. -/
def relationStep (db : DB) (r : RelInput) : DB × Bool :=
  let rf := getOrCreateEntityId db r.fromName "Unknown"
  let rt := getOrCreateEntityId rf.1 r.toName "Unknown"
  createRelation rt.1 rf.2 rt.2 r.relationType

/-- `createRelations` (knowledge-graph-manager.js lines 97-108):
resolve-or-create both endpoints with type `'Unknown'`, idempotently insert
the triple, and return only the newly created inputs, in order. -/
def createRelations (db : DB) : List RelInput → DB × List RelInput
  | [] => (db, [])
  | r :: rest =>
    let ins := relationStep db r
    let next := createRelations ins.1 rest
    (next.1, if ins.2 then r :: next.2 else next.2)

/-- Name-level relation presence: both endpoint names resolve and the
resolved (from, to, type) triple is stored. -/
def NameRelPresent (db : DB) (r : RelInput) : Prop :=
  ∃ fid tid, getEntityId db r.fromName = some fid ∧
    getEntityId db r.toName = some tid ∧ RelPresent db fid tid r.relationType

/-- The structured result of the manager's `setImportance`. -/
structure SetImportanceResult where
  success : Bool
  error : Option String
  message : Option String
deriving DecidableEq

/-- `setImportance` of the manager (knowledge-graph-manager.js lines
310-328): an unknown entity name yields `{success: false, error: 'Entity
"name" not found'}` without raising; the context manager validates the
importance level (an invalid one throws, and the manager catches the error
into `{success: false, error}`); otherwise the repository update runs and
`success` is `changes > 0`, with a human-readable message either way. -/
def setImportance (db : DB) (entityName importance : String) : DB × SetImportanceResult :=
  match getEntityId db entityName with
  | none =>
    (db, { success := false,
           error := some ("Entity \"" ++ entityName ++ "\" not found"),
           message := none })
  | some eid =>
    if importance ∈ importanceLevels then
      let upd := SqliteGraphRepository.setImportance db eid importance
      (upd.1,
       { success := upd.2, error := none,
         message := some (if upd.2 then
             "Importance set to \x27" ++ importance ++ "\x27 for entity \x27" ++ entityName ++ "\x27"
           else
             "Failed to set importance for entity \x27" ++ entityName ++ "\x27") })
    else
      (db, { success := false,
             error := some ("Invalid importance level: " ++ importance ++ ". Use ImportanceLevel enum values."),
             message := none })

end KnowledgeGraphManager

/-! ## context-manager.js: graph cache and bounded BFS

Entity ids are `ℕ` (the code normalizes them with `toString()`; the string
key `"from:to"` of the distance cache is modelled by the structured pair,
which the ids determine uniquely).  Relations are the repository's
`getRelationsForEntityIds` rows `(from_id, to_id)` and are treated as
undirected. -/

namespace ContextManager

/-- The adjacency cache: entity id to cached neighbor collection
(a JS `Map`; `set` prepends here, and lookup takes the first hit, which is
exactly the `Map.set`-overwrites semantics). -/
def AdjCache := List (ℕ × List ℕ)

/-- `GraphCache.getAdjacent` (first matching entry, the `Map.get`
semantics under prepend-on-set). -/
def lookupAdj : AdjCache → ℕ → Option (List ℕ)
  | [], _ => none
  | e :: es, x => if e.1 = x then some e.2 else lookupAdj es x

/-- The distance cache: ordered pair to cached distance (the cached value
`none` is a cached `null`, distinct from an absent key). -/
def DistCache := List ((ℕ × ℕ) × Option ℕ)

/-- `GraphCache.getDistance`: `none` = no entry, `some v` = cached `v`
(possibly `null`). -/
def lookupDist : DistCache → ℕ → ℕ → Option (Option ℕ)
  | [], _, _ => none
  | e :: es, a, b => if e.1 = (a, b) then some e.2 else lookupDist es a b

/-- The graph cache of context-manager.js: adjacency lists plus pair
distances. -/
structure GraphCache where
  adjC : AdjCache
  distC : DistCache

/-- The undirected neighbor list of `x` built from the relation rows, as in
the BFS body: `to_id` of rows with `from_id = x` and `from_id` of rows with
`to_id = x`. -/
def adjOf (rels : List (ℕ × ℕ)) (x : ℕ) : List ℕ :=
  ((rels.filter (fun p => p.1 == x)).map (·.2)) ++
  ((rels.filter (fun p => p.2 == x)).map (·.1))

/-- Undirected adjacency of the relation rows. -/
def Edge (rels : List (ℕ × ℕ)) (x y : ℕ) : Prop :=
  (x, y) ∈ rels ∨ (y, x) ∈ rels

instance (rels : List (ℕ × ℕ)) (x y : ℕ) : Decidable (Edge rels x y) := by
  unfold Edge; infer_instance

/-- `b` is within `n` undirected hops of `a`. -/
def reachLe (rels : List (ℕ × ℕ)) (a : ℕ) : ℕ → ℕ → Prop
  | 0, b => b = a
  | n + 1, b => reachLe rels a n b ∨ ∃ z, reachLe rels a n z ∧ Edge rels z b

/-- `x` is at exactly distance `d` from `a`: within `d` hops, and within no
smaller hop count. -/
def distEq (rels : List (ℕ × ℕ)) (a x d : ℕ) : Prop :=
  reachLe rels a d x ∧ ∀ k < d, ¬ reachLe rels a k x

/-- The adjacency cache is consistent with the relation rows: every cached
neighbor collection has exactly the true undirected neighbors as members.
An empty (cold) cache is trivially consistent. -/
def CacheOK (rels : List (ℕ × ℕ)) (c : AdjCache) : Prop :=
  ∀ x s, lookupAdj c x = some s → ∀ y, y ∈ s ↔ Edge rels x y

/-- `getAdjacent` with fallback: on a cache miss fetch the relations for
the single entity, build the neighbor collection and cache it. -/
def fetchAdj (rels : List (ℕ × ℕ)) (c : AdjCache) (x : ℕ) : List ℕ × AdjCache :=
  match lookupAdj c x with
  | some s => (s, c)
  | none => (adjOf rels x, (x, adjOf rels x) :: c)

/-- The `for (const connectedId of connections)` push loop: each connection
not yet visited is marked visited and appended to the queue with depth
`d`. -/
def pushAll (d : ℕ) : List ℕ → Finset ℕ → List (ℕ × ℕ) → Finset ℕ × List (ℕ × ℕ)
  | [], v, q => (v, q)
  | y :: ys, v, q =>
    if y ∈ v then pushAll d ys v q
    else pushAll d ys (insert y v) (q ++ [(y, d)])

/-- All entity ids mentioned in the relation rows. -/
def relNodes (rels : List (ℕ × ℕ)) : Finset ℕ :=
  rels.foldr (fun p s => insert p.1 (insert p.2 s)) ∅

/-- All entity ids mentioned in cached neighbor collections. -/
def cacheNodes (c : AdjCache) : Finset ℕ :=
  c.foldr (fun e s => e.2.toFinset ∪ s) ∅

/-- The finite universe BFS can ever enqueue from: relation endpoints plus
cached neighbors. -/
def bigV (rels : List (ℕ × ℕ)) (c : AdjCache) : Finset ℕ :=
  relNodes rels ∪ cacheNodes c

/-- The `while (queue.length > 0)` loop of `calculateGraphDistance`
(context-manager.js lines 443-483): pop the head; break (returning no
distance) once the popped depth reaches `maxDepth`; fetch the neighbors
through the adjacency cache; return `depth + 1` as soon as the target is a
neighbor; otherwise push the unvisited neighbors at `depth + 1` and
continue.  Termination: every pushed id lies in `bigV` and is freshly
visited, so `|bigV \ visited| + |queue|` strictly decreases. -/
def bfsLoop (rels : List (ℕ × ℕ)) (toId maxDepth : ℕ) (acache : AdjCache)
    (visited : Finset ℕ) (queue : List (ℕ × ℕ)) : Option ℕ × AdjCache :=
  match queue with
  | [] => (none, acache)
  | (x, d) :: rest =>
    if maxDepth ≤ d then (none, acache)
    else
      let fa := fetchAdj rels acache x
      if toId ∈ fa.1 then (some (d + 1), fa.2)
      else
        let vq := pushAll (d + 1) fa.1 visited rest
        bfsLoop rels toId maxDepth fa.2 vq.1 vq.2
termination_by ((bigV rels acache) \ visited).card + queue.length
decreasing_by
  have hrn : ∀ (l : List (ℕ × ℕ)) (p : ℕ × ℕ), p ∈ l → p.1 ∈ relNodes l ∧ p.2 ∈ relNodes l := by
    intro l
    induction l with
    | nil => intro p hp; simp at hp
    | cons q qs ih =>
      intro p hp
      rcases List.mem_cons.mp hp with h | h
      · subst h
        unfold relNodes
        simp
      · have h2 := ih p h
        unfold relNodes at h2 ⊢
        simp only [List.foldr_cons, Finset.mem_insert]
        exact ⟨Or.inr (Or.inr h2.1), Or.inr (Or.inr h2.2)⟩
  have hadj : ∀ (l : List (ℕ × ℕ)) (z w : ℕ), w ∈ adjOf l z → w ∈ relNodes l := by
    intro l z w hw
    unfold adjOf at hw
    rw [List.mem_append] at hw
    rcases hw with hw | hw
    · rw [List.mem_map] at hw
      obtain ⟨p, hp, rfl⟩ := hw
      rw [List.mem_filter] at hp
      exact (hrn l p hp.1).2
    · rw [List.mem_map] at hw
      obtain ⟨p, hp, rfl⟩ := hw
      rw [List.mem_filter] at hp
      exact (hrn l p hp.1).1
  have hcach : ∀ (cc : AdjCache) (x₀ : ℕ) (s : List ℕ),
      lookupAdj cc x₀ = some s → ∀ y ∈ s, y ∈ cacheNodes cc := by
    intro cc
    induction cc with
    | nil => intro x₀ s hs; simp [lookupAdj, List.find?] at hs
    | cons e es ih =>
      intro x₀ s hs y hy
      unfold lookupAdj at hs
      by_cases heb : e.1 = x₀
      · rw [if_pos heb] at hs
        obtain rfl : e.2 = s := by injection hs
        unfold cacheNodes
        simp only [List.foldr_cons, Finset.mem_union]
        exact Or.inl (List.mem_toFinset.mpr hy)
      · rw [if_neg heb] at hs
        have := ih x₀ s hs y hy
        unfold cacheNodes
        simp only [List.foldr_cons, Finset.mem_union]
        exact Or.inr this
  have hfetch : ∀ (cc : AdjCache) (z : ℕ),
      bigV rels (fetchAdj rels cc z).2 = bigV rels cc ∧
      ∀ y ∈ (fetchAdj rels cc z).1, y ∈ bigV rels cc := by
    intro cc z
    unfold fetchAdj
    rcases hlk : lookupAdj cc z with _ | s
    · refine ⟨?_, ?_⟩
      · simp only
        unfold bigV
        have : cacheNodes ((z, adjOf rels z) :: cc) = (adjOf rels z).toFinset ∪ cacheNodes cc := rfl
        rw [this]
        have hsub : (adjOf rels z).toFinset ⊆ relNodes rels := by
          intro w hw
          exact hadj rels z w (List.mem_toFinset.mp hw)
        ext w
        simp only [Finset.mem_union]
        constructor
        · rintro (h | h | h)
          · exact Or.inl h
          · exact Or.inl (hsub h)
          · exact Or.inr h
        · rintro (h | h)
          · exact Or.inl h
          · exact Or.inr (Or.inr h)
      · intro y hy
        simp only at hy
        unfold bigV
        rw [Finset.mem_union]
        exact Or.inl (hadj rels z y hy)
    · refine ⟨by simp only, ?_⟩
      intro y hy
      simp only at hy
      unfold bigV
      rw [Finset.mem_union]
      exact Or.inr (hcach cc z s hlk y hy)
  have hpush : ∀ (S : Finset ℕ) (D : ℕ) (ys : List ℕ) (v : Finset ℕ) (q : List (ℕ × ℕ)),
      (∀ y ∈ ys, y ∈ S) →
      (S \ (pushAll D ys v q).1).card + ((pushAll D ys v q).2).length ≤ (S \ v).card + q.length := by
    intro S D ys
    induction ys with
    | nil => intro v q _; simp [pushAll]
    | cons y ys ih =>
      intro v q hys
      have hyS : y ∈ S := hys y (List.mem_cons_self _ _)
      have hys' : ∀ z ∈ ys, z ∈ S := fun z hz => hys z (List.mem_cons_of_mem _ hz)
      by_cases hv : y ∈ v
      · rw [pushAll, if_pos hv]
        exact ih v q hys'
      · rw [pushAll, if_neg hv]
        have h1 := ih (insert y v) (q ++ [(y, D)]) hys'
        have h2 : (S \ insert y v).card + 1 = (S \ v).card := by
          rw [Finset.sdiff_insert]
          exact Finset.card_erase_add_one (Finset.mem_sdiff.mpr ⟨hyS, hv⟩)
        have h3 : (q ++ [(y, D)]).length = q.length + 1 := by simp
        rw [h3] at h1
        omega
  have hfe := hfetch acache x
  have key := hpush (bigV rels acache) (d + 1) (fetchAdj rels acache x).1 visited rest hfe.2
  show (bigV rels (fetchAdj rels acache x).2 \
          (pushAll (d + 1) (fetchAdj rels acache x).1 visited rest).1).card +
        ((pushAll (d + 1) (fetchAdj rels acache x).1 visited rest).2).length <
      (bigV rels acache \ visited).card + ((x, d) :: rest).length
  rw [hfe.1, List.length_cons]
  omega

/-- `GraphCache.getDistance` as seen by its caller (context-manager.js
lines 125-138): a present key returns its stored value, but a stored
`null` and a missing key both come back as JS `null` (the method returns
`null` on a miss and the stored value — possibly `null` — on a hit), so
the caller cannot distinguish them. -/
def getDistance (dc : DistCache) (f t : ℕ) : Option ℕ :=
  match lookupDist dc f t with
  | some (some v) => some v
  | _ => none

/-- `calculateGraphDistance` (context-manager.js lines 425-494): identical
endpoints give 0; a cached numeric distance is returned as is (the guard
`cachedDistance !== null` lets a cached `null` fall through, so a cached
`null` re-runs the search); otherwise run the bounded BFS from `fromId`
with `fromId` visited and queued at depth 0, then record the outcome in
the distance cache: a found distance is recorded under both `(from, to)`
and `(to, from)` (undirected), while a `null` outcome is recorded under
`(from, to)` only. -/
def calculateGraphDistance (rels : List (ℕ × ℕ)) (c : GraphCache)
    (fromId toId maxDepth : ℕ) : Option ℕ × GraphCache :=
  if fromId = toId then (some 0, c)
  else
    match getDistance c.distC fromId toId with
    | some v => (some v, c)
    | none =>
      let res := bfsLoop rels toId maxDepth c.adjC {fromId} [(fromId, 0)]
      match res.1 with
      | some d =>
        (some d,
         { adjC := res.2,
           distC := ((toId, fromId), some d) :: ((fromId, toId), some d) :: c.distC })
      | none =>
        (none, { adjC := res.2, distC := ((fromId, toId), (none : Option ℕ)) :: c.distC })

end ContextManager

/-! # Theorems -/

/-! ## Generic list helpers -/

theorem pairwise_key_inj {α β : Type} (key : α → β) {l : List α}
    (h : l.Pairwise (fun a b => key a ≠ key b)) {x y : α}
    (hx : x ∈ l) (hy : y ∈ l) (hk : key x = key y) : x = y := by
  induction l with
  | nil => simp at hx
  | cons a as ih =>
    rw [List.pairwise_cons] at h
    rcases List.mem_cons.mp hx with rfl | hx' <;>
      rcases List.mem_cons.mp hy with rfl | hy'
    · rfl
    · exact absurd hk (h.1 y hy')
    · exact absurd hk.symm (h.1 x hx')
    · exact ih h.2 hx' hy'

theorem length_filter_key_eq_one {α β : Type} [DecidableEq β] (key : α → β)
    {l : List α} (h : l.Pairwise (fun a b => key a ≠ key b)) {x : α} (k : β)
    (hx : x ∈ l) (hk : key x = k) :
    (l.filter (fun a => decide (key a = k))).length = 1 := by
  induction l with
  | nil => simp at hx
  | cons a as ih =>
    rw [List.pairwise_cons] at h
    rcases List.mem_cons.mp hx with rfl | hx'
    · rw [List.filter_cons, if_pos (by simp [hk])]
      have hnone : as.filter (fun b => decide (key b = k)) = [] := by
        apply List.filter_eq_nil_iff.mpr
        intro b hb
        simp only [decide_eq_true_eq]
        intro hbk
        exact h.1 b hb (hk ▸ hbk ▸ rfl)
      simp [hnone]
    · rw [List.filter_cons]
      by_cases ha : key a = k
      · exact absurd (ha.trans hk.symm) (h.1 x hx')
      · rw [if_neg (by simp [ha])]
        exact ih h.2 hx'

/-! ## C6: contextual score -/

/-- C6: under the default contextual configuration (nearWeight 1.5,
decayRate 0.2, maxDistance 3), `getContextualScore 0 = 1.5`; for
`0 < d ≤ maxDistance` the score is `nearWeight − d·decayRate` floored at
0.5 and non-increasing in `d`; for a null distance or `d > maxDistance`
the score is exactly 1.0. -/
theorem C6_contextual_score_spec :
    getContextualScore (some 0) defaultContextual = 3/2 ∧
    (∀ d : ℚ, 0 < d → d ≤ defaultContextual.maxDistance →
      getContextualScore (some d) defaultContextual =
        max (defaultContextual.nearWeight - d * defaultContextual.decayRate) (1/2)) ∧
    (∀ d d' : ℚ, 0 < d → d ≤ d' → d' ≤ defaultContextual.maxDistance →
      getContextualScore (some d') defaultContextual ≤
        getContextualScore (some d) defaultContextual) ∧
    getContextualScore none defaultContextual = 1 ∧
    (∀ d : ℚ, defaultContextual.maxDistance < d →
      getContextualScore (some d) defaultContextual = 1) := by
  have hval : ∀ d : ℚ, 0 < d → d ≤ 3 →
      getContextualScore (some d) defaultContextual = max (3/2 - d * (1/5)) (1/2) := by
    intro d hd0 hd3
    show (if defaultContextual.maxDistance < d then 1
          else if d = 0 then defaultContextual.nearWeight
          else max (defaultContextual.nearWeight - d * defaultContextual.decayRate) (1/2)) =
      max (3/2 - d * (1/5)) (1/2)
    rw [if_neg (show ¬ defaultContextual.maxDistance < d from not_lt.mpr hd3),
        if_neg (ne_of_gt hd0)]
    simp [defaultContextual]
  have hzero : getContextualScore (some 0) defaultContextual = 3/2 := by
    show (if defaultContextual.maxDistance < 0 then 1
          else if (0 : ℚ) = 0 then defaultContextual.nearWeight
          else max (defaultContextual.nearWeight - 0 * defaultContextual.decayRate) (1/2)) = 3/2
    norm_num [defaultContextual]
  refine ⟨hzero, ?_, ?_, rfl, ?_⟩
  · intro d hd0 hd3
    exact hval d hd0 hd3
  · intro d d' hd0 hdd hd'3
    rw [hval d hd0 (le_trans hdd hd'3), hval d' (lt_of_lt_of_le hd0 hdd) hd'3]
    apply max_le_max _ le_rfl
    linarith
  · intro d hd
    show (if defaultContextual.maxDistance < d then 1
          else if d = 0 then defaultContextual.nearWeight
          else max (defaultContextual.nearWeight - d * defaultContextual.decayRate) (1/2)) = 1
    rw [if_pos hd]

/-- Witness for C6 at concrete distances 1, 2 and 4. -/
theorem C6_witness :
    getContextualScore (some 1) defaultContextual = 13/10 ∧
    getContextualScore (some 2) defaultContextual ≤
      getContextualScore (some 1) defaultContextual ∧
    getContextualScore (some 4) defaultContextual = 1 := by
  obtain ⟨h0, hval, hmono, hnull, hbig⟩ := C6_contextual_score_spec
  refine ⟨?_, ?_, ?_⟩
  · rw [hval 1 (by norm_num) (by norm_num [defaultContextual])]
    norm_num [defaultContextual]
  · exact hmono 1 2 (by norm_num) (by norm_num) (by norm_num [defaultContextual])
  · exact hbig 4 (by norm_num [defaultContextual])

/-! ## C4: final score is the weighted sum under the merged profile -/

/-- C4: the final relevance score is the weighted sum of the four
component scores with the scoring profile's weights; a profile (named
preset string, or custom override of the four weights) is merged over the
default weights `{temporal: 0.4, popularity: 0.2, contextual: 0.2,
importance: 0.2}` field by field; under the default profile
`finalScore = 0.4·temporal + 0.2·popularity + 0.2·contextual +
0.2·importance` (NaN dates propagate: the score is `none` exactly when the
temporal component is). -/
theorem C4_final_score_weighted_sum :
    (∀ (e l10 : ℚ → ℝ) (now : ℚ) (ent : EntityFacts) (dist : Option ℚ)
        (cfg : ScoringConfig),
      (calculateRelevanceScore e l10 now ent dist cfg).finalScore =
        (calculateRelevanceScore e l10 now ent dist cfg).components.temporal.map
          (fun t =>
            t * (cfg.weights.temporal : ℝ) +
            (calculateRelevanceScore e l10 now ent dist cfg).components.popularity *
              (cfg.weights.popularity : ℝ) +
            ((calculateRelevanceScore e l10 now ent dist cfg).components.contextual : ℝ) *
              (cfg.weights.contextual : ℝ) +
            ((calculateRelevanceScore e l10 now ent dist cfg).components.importance : ℝ) *
              (cfg.weights.importance : ℝ))) ∧
    (∀ o : ScoringOverride,
      (createScoringConfig (.custom o)).weights = mergeWeights defaultWeights o.weights) ∧
    (∀ o : WeightsOverride,
      mergeWeights defaultWeights o =
        { temporal := o.temporal.getD (2/5), popularity := o.popularity.getD (1/5),
          contextual := o.contextual.getD (1/5), importance := o.importance.getD (1/5) }) ∧
    (∀ s : String, createScoringConfig (.named s) = defaultScoringConfig) ∧
    defaultWeights = { temporal := 2/5, popularity := 1/5, contextual := 1/5,
                       importance := 1/5 } ∧
    (∀ (e l10 : ℚ → ℝ) (now : ℚ) (ent : EntityFacts) (dist : Option ℚ),
      (calculateRelevanceScore e l10 now ent dist defaultScoringConfig).finalScore =
        (getTemporalScore e now ent.createdAt ent.lastAccessed defaultTemporal).map
          (fun t =>
            t * (2/5 : ℝ) +
            getPopularityScore l10 (ent.accessCount.getD 0) defaultPopularity * (1/5 : ℝ) +
            (getContextualScore dist defaultContextual : ℝ) * (1/5 : ℝ) +
            (getImportanceScore ent.importance : ℝ) * (1/5 : ℝ))) := by
  refine ⟨fun e l10 now ent dist cfg => rfl, fun o => rfl, fun o => rfl, fun s => rfl,
    by norm_num [defaultWeights], ?_⟩
  intro e l10 now ent dist
  show (getTemporalScore e now ent.createdAt ent.lastAccessed defaultTemporal).map _ =
    (getTemporalScore e now ent.createdAt ent.lastAccessed defaultTemporal).map _
  apply Option.map_congr
  intro t _
  norm_num [defaultScoringConfig, defaultWeights]

/-! ## C8: setImportance results (corrected) -/

/-- C8 counterexample: the claim says `setImportance` on an existing
entity returns `{success: true}`, but for an existing entity with no
observations the repository `UPDATE` touches zero rows (`changes = 0`), so
the manager returns `{success: false}` with the failure message. -/
theorem C8_counterexample :
    SqliteGraphRepository.getEntityId
      { entities := [{ id := 1, name := "E", entityType := "T" }], nextEntityId := 2 : DB }
      "E" = some 1 ∧
    (KnowledgeGraphManager.setImportance
      { entities := [{ id := 1, name := "E", entityType := "T" }], nextEntityId := 2 : DB }
      "E" "critical").2 =
      { success := false, error := none,
        message := some "Failed to set importance for entity \x27E\x27" } := by
  constructor
  · rfl
  · rfl

/-- C8 amended: `setImportance` on a nonexistent entity name returns a
structured `{success: false}` failure naming the offending entity, without
raising; on an existing entity **with at least one observation** (and a
valid importance level) it returns `{success: true}` with a human-readable
message, every observation of the entity then carries the new level, and
the importance score component computed from any of those observations
equals the new level's categorical weight. -/
theorem C8_setImportance_spec (db : DB) (name imp : String) (eid : ℕ)
    (hfound : SqliteGraphRepository.getEntityId db name = some eid)
    (hvalid : imp ∈ importanceLevels)
    (hobs : ∃ o ∈ db.obs, o.entityId = eid) :
    (∀ name', SqliteGraphRepository.getEntityId db name' = none →
      KnowledgeGraphManager.setImportance db name' imp =
        (db, { success := false,
               error := some ("Entity \"" ++ name' ++ "\" not found"),
               message := none })) ∧
    (KnowledgeGraphManager.setImportance db name imp).2 =
      { success := true, error := none,
        message := some ("Importance set to \x27" ++ imp ++ "\x27 for entity \x27" ++
          name ++ "\x27") } ∧
    (∀ o ∈ (KnowledgeGraphManager.setImportance db name imp).1.obs,
      o.entityId = eid → o.importance = imp) ∧
    (∀ o ∈ (KnowledgeGraphManager.setImportance db name imp).1.obs,
      o.entityId = eid →
        getImportanceScore (some o.importance) = (importanceWeights.lookup imp).getD 1) := by
  have hne : ∀ name', SqliteGraphRepository.getEntityId db name' = none →
      KnowledgeGraphManager.setImportance db name' imp =
        (db, { success := false,
               error := some ("Entity \"" ++ name' ++ "\" not found"),
               message := none }) := by
    intro name' h
    unfold KnowledgeGraphManager.setImportance
    rw [h]
  have hany : db.obs.any (fun o => o.entityId == eid) = true := by
    obtain ⟨o, ho, heq⟩ := hobs
    exact List.any_eq_true.mpr ⟨o, ho, by simp [heq]⟩
  have hmain : KnowledgeGraphManager.setImportance db name imp =
      ({ db with obs := db.obs.map (fun o =>
          if o.entityId == eid then { o with importance := imp } else o) },
       { success := true, error := none,
         message := some ("Importance set to \x27" ++ imp ++ "\x27 for entity \x27" ++
           name ++ "\x27") }) := by
    unfold KnowledgeGraphManager.setImportance
    split
    · next heq => rw [hfound] at heq; exact absurd heq (by simp)
    · next e heq =>
      rw [hfound] at heq
      injection heq with heq'
      subst heq'
      rw [if_pos hvalid]
      unfold SqliteGraphRepository.setImportance
      simp [hany]
  have hupd : ∀ o ∈ (KnowledgeGraphManager.setImportance db name imp).1.obs,
      o.entityId = eid → o.importance = imp := by
    intro o ho heq
    rw [hmain] at ho
    simp only [List.mem_map] at ho
    obtain ⟨o₀, _, rfl⟩ := ho
    by_cases h0 : o₀.entityId == eid
    · rw [if_pos h0]
    · rw [if_neg h0] at heq ⊢
      exact absurd (by simp [heq]) h0
  refine ⟨hne, by rw [hmain], hupd, ?_⟩
  intro o ho heq
  rw [hupd o ho heq]
  fin_cases hvalid <;> rfl

/-- Witness for C8 at a concrete database with one observed entity. -/
theorem C8_witness :
    (KnowledgeGraphManager.setImportance
      { entities := [{ id := 1, name := "E", entityType := "T" }], nextEntityId := 2,
        obs := [{ id := 1, entityId := 1, content := "c" }], nextObsId := 2 : DB }
      "E" "critical").2 =
      { success := true, error := none,
        message := some "Importance set to \x27critical\x27 for entity \x27E\x27" } := by
  have h := C8_setImportance_spec
    { entities := [{ id := 1, name := "E", entityType := "T" }], nextEntityId := 2,
      obs := [{ id := 1, entityId := 1, content := "c" }], nextObsId := 2 : DB }
    "E" "critical" 1 (by rfl) (by decide)
    ⟨{ id := 1, entityId := 1, content := "c" }, by simp, rfl⟩
  exact h.2.1

/-! ## C2 and C9: transactional vector batch -/

theorem upsertVec_self (vecs : List VecRow)
    (r : VecRow) : r ∈ SqliteGraphRepository.upsertVec vecs r := by
  unfold SqliteGraphRepository.upsertVec
  by_cases h : vecs.any (fun v => v.observationId == r.observationId)
  · rw [if_pos h]
    obtain ⟨v, hv, hveq⟩ := List.any_eq_true.mp h
    rw [List.mem_map]
    exact ⟨v, hv, by rw [if_pos hveq]⟩
  · rw [if_neg h]
    simp

theorem upsertVec_preserve (vecs : List VecRow)
    (r w : VecRow) (hw : w ∈ vecs)
    (hne : w.observationId ≠ r.observationId) :
    w ∈ SqliteGraphRepository.upsertVec vecs r := by
  unfold SqliteGraphRepository.upsertVec
  by_cases h : vecs.any (fun v => v.observationId == r.observationId)
  · rw [if_pos h, List.mem_map]
    refine ⟨w, hw, ?_⟩
    rw [if_neg (by simp [hne])]
  · rw [if_neg h]
    exact List.mem_append_left _ hw

theorem applyVecRows_ok (dim : ℕ) (rows : List VecRow)
    (hdim : ∀ r ∈ rows, r.embedding.length = dim) (vecs : List VecRow) :
    ∃ vs, SqliteGraphRepository.applyVecRows dim vecs rows = .ok vs := by
  induction rows generalizing vecs with
  | nil => exact ⟨vecs, rfl⟩
  | cons r rs ih =>
    unfold SqliteGraphRepository.applyVecRows
    rw [if_pos (hdim r (List.mem_cons_self _ _))]
    exact ih (fun r' hr' => hdim r' (List.mem_cons_of_mem _ hr'))
      (SqliteGraphRepository.upsertVec vecs r)

theorem applyVecRows_preserve (dim : ℕ) (rows : List VecRow)
    (vecs vs : List VecRow)
    (hok : SqliteGraphRepository.applyVecRows dim vecs rows = .ok vs)
    (w : VecRow) (hw : w ∈ vecs)
    (hfresh : ∀ r ∈ rows, r.observationId ≠ w.observationId) : w ∈ vs := by
  induction rows generalizing vecs with
  | nil =>
    unfold SqliteGraphRepository.applyVecRows at hok
    injection hok with h
    exact h ▸ hw
  | cons r rs ih =>
    unfold SqliteGraphRepository.applyVecRows at hok
    by_cases hd : r.embedding.length = dim
    · rw [if_pos hd] at hok
      refine ih _ hok ?_ (fun r' hr' => hfresh r' (List.mem_cons_of_mem _ hr'))
      exact upsertVec_preserve vecs r w hw
        (fun h => hfresh r (List.mem_cons_self _ _) h.symm)
    · rw [if_neg hd] at hok
      exact absurd hok (by simp)

theorem applyVecRows_mem (dim : ℕ) (rows : List VecRow)
    (hnodup : (rows.map (·.observationId)).Nodup)
    (vecs vs : List VecRow)
    (hok : SqliteGraphRepository.applyVecRows dim vecs rows = .ok vs) :
    ∀ r ∈ rows, r ∈ vs := by
  induction rows generalizing vecs with
  | nil => intro r hr; simp at hr
  | cons r₀ rs ih =>
    intro r hr
    unfold SqliteGraphRepository.applyVecRows at hok
    by_cases hd : r₀.embedding.length = dim
    · rw [if_pos hd] at hok
      rw [List.map_cons, List.nodup_cons] at hnodup
      rcases List.mem_cons.mp hr with rfl | hr'
      · refine applyVecRows_preserve dim rs _ vs hok r (upsertVec_self vecs r) ?_
        intro r' hr' heq
        exact hnodup.1 (heq ▸ List.mem_map_of_mem (·.observationId) hr')
      · exact ih hnodup.2 _ hok r hr'
    · rw [if_neg hd] at hok
      exact absurd hok (by simp)

theorem applyVecRows_error (dim : ℕ) (rows : List VecRow)
    (r : VecRow) (hr : r ∈ rows)
    (hbad : r.embedding.length ≠ dim) (vecs : List VecRow) :
    ∃ e, SqliteGraphRepository.applyVecRows dim vecs rows = .error e := by
  induction rows generalizing vecs with
  | nil => simp at hr
  | cons r₀ rs ih =>
    unfold SqliteGraphRepository.applyVecRows
    by_cases hd : r₀.embedding.length = dim
    · rw [if_pos hd]
      rcases List.mem_cons.mp hr with rfl | hr'
      · exact absurd hd hbad
      · exact ih hr' _
    · rw [if_neg hd]
      exact ⟨_, rfl⟩

/-- C2: the vector batch is all-or-nothing.  When every row fits the
declared dimension the batch commits: the returned state differs from the
input state only in the `obs_vec` table, with every row of the batch
persisted under its observation id (the batch keys are distinct in the
ingestion path, which allocates fresh observation ids).  When any row
fails, the whole transaction is rolled back — the returned state is
exactly the input state, so no vector row of the batch remains and the
previously committed observation rows are untouched — and the error is
re-raised (`some e`). -/
theorem C2_insertObservationVectors_atomic (db : DB)
    (rows : List VecRow) :
    ((∀ r ∈ rows, r.embedding.length = db.dim) →
      ∃ vs, SqliteGraphRepository.insertObservationVectors db rows =
          ({ db with vecs := vs }, none) ∧
        ((rows.map (·.observationId)).Nodup → ∀ r ∈ rows, r ∈ vs)) ∧
    ((∃ r ∈ rows, r.embedding.length ≠ db.dim) →
      ∃ e, SqliteGraphRepository.insertObservationVectors db rows = (db, some e)) ∧
    (SqliteGraphRepository.insertObservationVectors db rows).1.obs = db.obs ∧
    (SqliteGraphRepository.insertObservationVectors db rows).1.entities = db.entities ∧
    (SqliteGraphRepository.insertObservationVectors db rows).1.rels = db.rels := by
  refine ⟨?_, ?_, ?_⟩
  · intro hdim
    unfold SqliteGraphRepository.insertObservationVectors
    by_cases hemp : rows.isEmpty
    · rw [if_pos hemp]
      refine ⟨db.vecs, rfl, fun _ r hr => ?_⟩
      rw [List.isEmpty_iff.mp hemp] at hr
      simp at hr
    · rw [if_neg hemp]
      obtain ⟨vs, hvs⟩ := applyVecRows_ok db.dim rows hdim db.vecs
      rw [hvs]
      exact ⟨vs, rfl, fun hnodup => applyVecRows_mem db.dim rows hnodup db.vecs vs hvs⟩
  · rintro ⟨r, hr, hbad⟩
    unfold SqliteGraphRepository.insertObservationVectors
    rw [if_neg (by rcases rows with _ | _ <;> simp_all)]
    obtain ⟨e, he⟩ := applyVecRows_error db.dim rows r hr hbad db.vecs
    rw [he]
    exact ⟨e, rfl⟩
  · unfold SqliteGraphRepository.insertObservationVectors
    by_cases hemp : rows.isEmpty
    · rw [if_pos hemp]; exact ⟨rfl, rfl, rfl⟩
    · rw [if_neg hemp]
      rcases h : SqliteGraphRepository.applyVecRows db.dim db.vecs rows with vs | e
      · exact ⟨rfl, rfl, rfl⟩
      · exact ⟨rfl, rfl, rfl⟩

/-- Witness for C2: a two-row batch with matching dimension commits both
rows; adding a wrong-width row rolls the whole batch back with an error. -/
theorem C2_witness :
    (∃ vs, SqliteGraphRepository.insertObservationVectors { dim := 2 : DB }
        [{ observationId := 1, entityId := 1, embedding := [0, 1] },
         { observationId := 2, entityId := 1, embedding := [1, 0] }] =
        ({ dim := 2, vecs := vs : DB }, none) ∧
      ({ observationId := 1, entityId := 1, embedding := [0, 1] :
          VecRow } ∈ vs ∧
       { observationId := 2, entityId := 1, embedding := [1, 0] :
          VecRow } ∈ vs)) ∧
    (∃ e, SqliteGraphRepository.insertObservationVectors { dim := 2 : DB }
        [{ observationId := 1, entityId := 1, embedding := [0, 1] },
         { observationId := 2, entityId := 1, embedding := [1, 0, 3] }] =
        ({ dim := 2 : DB }, some e)) := by
  constructor
  · obtain ⟨hok, herr, _⟩ := C2_insertObservationVectors_atomic { dim := 2 : DB }
      [{ observationId := 1, entityId := 1, embedding := [0, 1] },
       { observationId := 2, entityId := 1, embedding := [1, 0] }]
    obtain ⟨vs, hvs, hmem⟩ := hok (by decide)
    have h2 := hmem (by decide)
    exact ⟨vs, hvs, h2 _ (by decide), h2 _ (by decide)⟩
  · obtain ⟨hok, herr, _⟩ := C2_insertObservationVectors_atomic { dim := 2 : DB }
      [{ observationId := 1, entityId := 1, embedding := [0, 1] },
       { observationId := 2, entityId := 1, embedding := [1, 0, 3] }]
    exact herr ⟨{ observationId := 2, entityId := 1, embedding := [1, 0, 3] },
      by decide, by decide⟩

/-- C9: a batch containing an embedding whose length differs from the
backend's declared vector dimension is rejected at write time: the call
fails (`some e`) and the state is unchanged, so no truncated or wrong-width
vector is ever stored. -/
theorem C9_dimension_mismatch_rejected (db : DB)
    (rows : List VecRow) (r : VecRow)
    (hr : r ∈ rows) (hbad : r.embedding.length ≠ db.dim) :
    ∃ e, SqliteGraphRepository.insertObservationVectors db rows = (db, some e) := by
  unfold SqliteGraphRepository.insertObservationVectors
  rw [if_neg (by rcases rows with _ | _ <;> simp_all)]
  obtain ⟨e, he⟩ := applyVecRows_error db.dim rows r hr hbad db.vecs
  rw [he]
  exact ⟨e, rfl⟩

/-- Witness for C9: a 3-wide embedding against a 2-dimensional store is
rejected and the store is unchanged. -/
theorem C9_witness :
    ∃ e, SqliteGraphRepository.insertObservationVectors { dim := 2 : DB }
        [{ observationId := 1, entityId := 1, embedding := [1, 0, 3] }] =
      ({ dim := 2 : DB }, some e) :=
  C9_dimension_mismatch_rejected { dim := 2 : DB }
    [{ observationId := 1, entityId := 1, embedding := [1, 0, 3] }]
    { observationId := 1, entityId := 1, embedding := [1, 0, 3] }
    (by decide) (by decide)

/-! ## C10: openNodes returns only relations internal to the opened set -/

theorem entName_eq_some {db : DB} {i : ℕ} {n : String}
    (h : SqliteGraphRepository.entName db i = some n) :
    ∃ e ∈ db.entities, e.id = i ∧ e.name = n := by
  unfold SqliteGraphRepository.entName at h
  rcases hf : db.entities.find? (fun e => e.id == i) with _ | e
  · rw [hf] at h; simp at h
  · rw [hf] at h
    simp only [Option.map_some'] at h
    refine ⟨e, List.mem_of_find?_eq_some hf, ?_, by injection h⟩
    have := List.find?_some hf
    simpa using this

theorem entName_isSome {db : DB} {i : ℕ} (h : ∃ e ∈ db.entities, e.id = i) :
    ∃ n, SqliteGraphRepository.entName db i = some n := by
  obtain ⟨e, he, hei⟩ := h
  rcases hf : db.entities.find? (fun e => e.id == i) with _ | e'
  · rw [List.find?_eq_none] at hf
    exact absurd (by simp [hei]) (hf e he)
  · exact ⟨e'.name, by unfold SqliteGraphRepository.entName; rw [hf]; rfl⟩

theorem entName_inj {db : DB} (hwf : WF db) {i j : ℕ} {n : String}
    (hi : SqliteGraphRepository.entName db i = some n)
    (hj : SqliteGraphRepository.entName db j = some n) : i = j := by
  obtain ⟨ei, hei, heii, heni⟩ := entName_eq_some hi
  obtain ⟨ej, hej, heij, henj⟩ := entName_eq_some hj
  have := pairwise_key_inj (·.name) hwf.entNamesNodup hei hej
    (show ei.name = ej.name by rw [heni, henj])
  rw [← heii, ← heij, this]

theorem openNodes_eq (db : DB) (names : List String)
    (h1 : names.isEmpty = false)
    (h2 : (db.entities.filter (fun e => names.contains e.name)).isEmpty = false) :
    SqliteGraphRepository.openNodes db names =
      ((db.entities.filter (fun e => names.contains e.name)).map (fun e =>
        { name := e.name, entityType := e.entityType,
          observations := (db.obs.filter (fun o => o.entityId == e.id)).map (·.content) }),
       (db.rels.filter (fun r =>
          (SqliteGraphRepository.openedIds db names).contains r.fromId &&
          (SqliteGraphRepository.openedIds db names).contains r.toId)).filterMap
        (SqliteGraphRepository.namedRel db)) := by
  unfold SqliteGraphRepository.openNodes
  simp only [h1, h2, Bool.false_eq_true, if_false]
  rfl

/-- C10: the relations returned by `openNodes(names)` are exactly the
stored relations both of whose endpoints are among the opened entities
(the entity rows whose name is in the requested list); a relation linking
an opened entity to an entity outside the requested set is omitted. -/
theorem C10_openNodes_relations (db : DB) (hwf : WF db) (names : List String) :
    (∀ r ∈ db.rels,
      r.fromId ∈ SqliteGraphRepository.openedIds db names →
      r.toId ∈ SqliteGraphRepository.openedIds db names →
      ∃ nr, SqliteGraphRepository.namedRel db r = some nr ∧
        nr ∈ (SqliteGraphRepository.openNodes db names).2) ∧
    (∀ nr ∈ (SqliteGraphRepository.openNodes db names).2,
      ∃ r ∈ db.rels, SqliteGraphRepository.namedRel db r = some nr ∧
        r.fromId ∈ SqliteGraphRepository.openedIds db names ∧
        r.toId ∈ SqliteGraphRepository.openedIds db names) ∧
    (∀ r ∈ db.rels, ∀ nr, SqliteGraphRepository.namedRel db r = some nr →
      (r.fromId ∉ SqliteGraphRepository.openedIds db names ∨
       r.toId ∉ SqliteGraphRepository.openedIds db names) →
      nr ∉ (SqliteGraphRepository.openNodes db names).2) ∧
    ((SqliteGraphRepository.openNodes db names).1.map (·.name) =
      (db.entities.filter (fun e => names.contains e.name)).map (·.name)) := by
  have hidsEmpty : ∀ (h : (db.entities.filter (fun e => names.contains e.name)) = []),
      SqliteGraphRepository.openedIds db names = [] := by
    intro h
    unfold SqliteGraphRepository.openedIds
    rw [h]
    rfl
  by_cases h1 : names.isEmpty
  · have hnil : names = [] := List.isEmpty_iff.mp h1
    have hfilter : db.entities.filter (fun e => names.contains e.name) = [] := by
      apply List.filter_eq_nil_iff.mpr
      intro e _
      simp [hnil]
    have hids := hidsEmpty hfilter
    have hout : SqliteGraphRepository.openNodes db names = ([], []) := by
      unfold SqliteGraphRepository.openNodes
      rw [if_pos h1]
    refine ⟨?_, ?_, ?_, ?_⟩
    · intro r _ hf _
      rw [hids] at hf
      simp at hf
    · intro nr hnr
      rw [hout] at hnr
      simp at hnr
    · intro r _ nr _ _ hmem
      rw [hout] at hmem
      simp at hmem
    · rw [hout, hfilter]
      rfl
  · by_cases h2 : (db.entities.filter (fun e => names.contains e.name)).isEmpty
    · have hfilter : db.entities.filter (fun e => names.contains e.name) = [] :=
        List.isEmpty_iff.mp h2
      have hids := hidsEmpty hfilter
      have hout : SqliteGraphRepository.openNodes db names = ([], []) := by
        unfold SqliteGraphRepository.openNodes
        rw [if_neg h1]
        simp only [hfilter]
        rfl
      refine ⟨?_, ?_, ?_, ?_⟩
      · intro r _ hf _
        rw [hids] at hf
        simp at hf
      · intro nr hnr
        rw [hout] at hnr
        simp at hnr
      · intro r _ nr _ _ hmem
        rw [hout] at hmem
        simp at hmem
      · rw [hout, hfilter]
        rfl
    · have heq := openNodes_eq db names (Bool.not_eq_true _ ▸ h1)
        (Bool.not_eq_true _ ▸ h2)
      have hB : ∀ nr ∈ (SqliteGraphRepository.openNodes db names).2,
          ∃ r ∈ db.rels, SqliteGraphRepository.namedRel db r = some nr ∧
            r.fromId ∈ SqliteGraphRepository.openedIds db names ∧
            r.toId ∈ SqliteGraphRepository.openedIds db names := by
        intro nr hnr
        rw [heq] at hnr
        obtain ⟨r, hrmem, hnamed⟩ := List.mem_filterMap.mp hnr
        rw [List.mem_filter] at hrmem
        refine ⟨r, hrmem.1, hnamed, ?_, ?_⟩
        · have := hrmem.2
          simp only [Bool.and_eq_true, List.elem_iff] at this
          exact this.1
        · have := hrmem.2
          simp only [Bool.and_eq_true, List.elem_iff] at this
          exact this.2
      refine ⟨?_, hB, ?_, ?_⟩
      · intro r hr hf ht
        have hfrom : ∃ n, SqliteGraphRepository.entName db r.fromId = some n := by
          apply entName_isSome
          unfold SqliteGraphRepository.openedIds at hf
          obtain ⟨e, he, hei⟩ := List.mem_map.mp hf
          exact ⟨e, (List.mem_filter.mp he).1, hei⟩
        have hto : ∃ n, SqliteGraphRepository.entName db r.toId = some n := by
          apply entName_isSome
          unfold SqliteGraphRepository.openedIds at ht
          obtain ⟨e, he, hei⟩ := List.mem_map.mp ht
          exact ⟨e, (List.mem_filter.mp he).1, hei⟩
        obtain ⟨nf, hnf⟩ := hfrom
        obtain ⟨nt, hnt⟩ := hto
        have hnamed : SqliteGraphRepository.namedRel db r =
            some { fromName := nf, toName := nt, relationType := r.relationType } := by
          unfold SqliteGraphRepository.namedRel
          rw [hnf, hnt]
        refine ⟨_, hnamed, ?_⟩
        rw [heq]
        apply List.mem_filterMap.mpr
        refine ⟨r, ?_, hnamed⟩
        rw [List.mem_filter]
        exact ⟨hr, by simp [List.elem_iff, hf, ht]⟩
      · intro r hr nr hnamed hout hmem
        obtain ⟨r', hr', hnamed', hf', ht'⟩ := hB nr hmem
        have hgen : ∀ (rr : RelRow) (nn : SqliteGraphRepository.OpenedRel),
            SqliteGraphRepository.namedRel db rr = some nn →
            SqliteGraphRepository.entName db rr.fromId = some nn.fromName ∧
            SqliteGraphRepository.entName db rr.toId = some nn.toName := by
          intro rr nn hh
          unfold SqliteGraphRepository.namedRel at hh
          rcases hx1 : SqliteGraphRepository.entName db rr.fromId with _ | nf <;>
            rcases hx2 : SqliteGraphRepository.entName db rr.toId with _ | nt <;>
              rw [hx1, hx2] at hh
          · exact Option.noConfusion hh
          · exact Option.noConfusion hh
          · exact Option.noConfusion hh
          · injection hh with hh'
            subst hh'
            exact ⟨rfl, rfl⟩
        have hfe := hgen r nr hnamed
        have hfe' := hgen r' nr hnamed'
        have heqf : r.fromId = r'.fromId := entName_inj hwf hfe.1 hfe'.1
        have heqt : r.toId = r'.toId := entName_inj hwf hfe.2 hfe'.2
        rcases hout with hno | hno
        · exact hno (heqf ▸ hf')
        · exact hno (heqt ▸ ht')
      · rw [heq]
        simp only [List.map_map]
        rfl

/-- Witness for C10: a concrete graph where only the relation internal to
the opened pair is returned, and the boundary-crossing one is omitted. -/
theorem C10_witness :
    (SqliteGraphRepository.openNodes
      { entities := [{ id := 1, name := "E", entityType := "T" },
                     { id := 2, name := "F", entityType := "T" },
                     { id := 3, name := "G", entityType := "T" }],
        nextEntityId := 4,
        rels := [{ id := 1, fromId := 1, toId := 2, relationType := "knows" },
                 { id := 2, fromId := 2, toId := 3, relationType := "sees" }],
        nextRelId := 3 : DB } ["E", "F"]).2 =
      [{ fromName := "E", toName := "F", relationType := "knows" }] ∧
    ({ fromName := "F", toName := "G", relationType := "sees" :
        SqliteGraphRepository.OpenedRel } ∉
      (SqliteGraphRepository.openNodes
        { entities := [{ id := 1, name := "E", entityType := "T" },
                       { id := 2, name := "F", entityType := "T" },
                       { id := 3, name := "G", entityType := "T" }],
          nextEntityId := 4,
          rels := [{ id := 1, fromId := 1, toId := 2, relationType := "knows" },
                   { id := 2, fromId := 2, toId := 3, relationType := "sees" }],
          nextRelId := 3 : DB } ["E", "F"]).2) := by
  constructor
  · decide
  · have h := C10_openNodes_relations
      { entities := [{ id := 1, name := "E", entityType := "T" },
                     { id := 2, name := "F", entityType := "T" },
                     { id := 3, name := "G", entityType := "T" }],
        nextEntityId := 4,
        rels := [{ id := 1, fromId := 1, toId := 2, relationType := "knows" },
                 { id := 2, fromId := 2, toId := 3, relationType := "sees" }],
        nextRelId := 3 : DB }
      (by constructor <;> decide) ["E", "F"]
    exact h.2.2.1 { id := 2, fromId := 2, toId := 3, relationType := "sees" }
      (by decide) _ (by decide) (Or.inr (by decide))

/-! ## Entity resolution lemmas (shared by C1 and C7) -/

theorem getEntityId_eq_some {db : DB} {n : String} {i : ℕ}
    (h : SqliteGraphRepository.getEntityId db n = some i) :
    ∃ e ∈ db.entities, e.name = n ∧ e.id = i := by
  unfold SqliteGraphRepository.getEntityId at h
  rcases hf : db.entities.find? (fun e => e.name == n) with _ | e
  · rw [hf] at h; simp at h
  · rw [hf] at h
    simp only [Option.map_some'] at h
    refine ⟨e, List.mem_of_find?_eq_some hf, ?_, by injection h⟩
    have := List.find?_some hf
    simpa using this

theorem getEntityId_none {db : DB} {n : String}
    (h : SqliteGraphRepository.getEntityId db n = none) :
    ∀ e ∈ db.entities, e.name ≠ n := by
  unfold SqliteGraphRepository.getEntityId at h
  rcases hf : db.entities.find? (fun e => e.name == n) with _ | e
  · intro e he
    have := List.find?_eq_none.mp hf e he
    simpa using this
  · rw [hf] at h; simp at h

theorem getEntityId_isSome {db : DB} {n : String} {e : EntityRow}
    (he : e ∈ db.entities) (hn : e.name = n) :
    ∃ i, SqliteGraphRepository.getEntityId db n = some i := by
  rcases hf : db.entities.find? (fun e => e.name == n) with _ | e'
  · exact absurd (by simp [hn]) (List.find?_eq_none.mp hf e he)
  · exact ⟨e'.id, by unfold SqliteGraphRepository.getEntityId; rw [hf]; rfl⟩

theorem getEntityId_only_entities {db db' : DB} (h : db'.entities = db.entities)
    (m : String) :
    SqliteGraphRepository.getEntityId db' m = SqliteGraphRepository.getEntityId db m := by
  unfold SqliteGraphRepository.getEntityId
  rw [h]

theorem getEntityId_push (db : DB) (e : EntityRow) (k : ℕ) (m : String) :
    SqliteGraphRepository.getEntityId
      { db with entities := db.entities ++ [e], nextEntityId := k } m =
      (SqliteGraphRepository.getEntityId db m).or
        (if e.name = m then some e.id else none) := by
  unfold SqliteGraphRepository.getEntityId
  rw [show ({ db with entities := db.entities ++ [e], nextEntityId := k } : DB).entities =
      db.entities ++ [e] from rfl, List.find?_append]
  by_cases he : e.name = m
  · have hsing : [e].find? (fun x => x.name == m) = some e := by simp [List.find?, he]
    rw [hsing, if_pos he]
    rcases hf : db.entities.find? (fun x => x.name == m) with _ | x
    · rw [hf]; rfl
    · rw [hf]; rfl
  · have hbe : (e.name == m) = false := by simpa using he
    have hsing : [e].find? (fun x => x.name == m) = none := by simp [List.find?, hbe]
    rw [hsing, if_neg he]
    rcases hf : db.entities.find? (fun x => x.name == m) with _ | x
    · rw [hf]; rfl
    · rw [hf]; rfl

theorem getOrCreate_hit {db : DB} {n : String} (ty : String) {i : ℕ}
    (hg : SqliteGraphRepository.getEntityId db n = some i) :
    SqliteGraphRepository.getOrCreateEntityId db n ty = (db, i) := by
  unfold SqliteGraphRepository.getOrCreateEntityId
  rw [hg]

theorem getOrCreate_miss {db : DB} {n : String} (ty : String)
    (hg : SqliteGraphRepository.getEntityId db n = none) :
    SqliteGraphRepository.getOrCreateEntityId db n ty =
      ({ db with
          entities := db.entities ++ [{ id := db.nextEntityId, name := n, entityType := ty }],
          nextEntityId := db.nextEntityId + 1 },
       db.nextEntityId) := by
  unfold SqliteGraphRepository.getOrCreateEntityId
  rw [hg]
  rfl

/-- Behaviour of `getOrCreateEntityId`: preserves well-formedness, resolves
the requested name to the returned id, leaves every other name resolution
(and the observation, relation and vector tables) unchanged, only ever
appends an entity row, and on a miss hands out the fresh
`nextEntityId`, which no stored observation references. -/
theorem getOrCreate_spec (db : DB) (hwf : WF db) (n ty : String) :
    WF (SqliteGraphRepository.getOrCreateEntityId db n ty).1 ∧
    SqliteGraphRepository.getEntityId (SqliteGraphRepository.getOrCreateEntityId db n ty).1 n =
      some (SqliteGraphRepository.getOrCreateEntityId db n ty).2 ∧
    (∀ m i, SqliteGraphRepository.getEntityId db m = some i →
      SqliteGraphRepository.getEntityId (SqliteGraphRepository.getOrCreateEntityId db n ty).1 m = some i) ∧
    (∀ m, m ≠ n →
      SqliteGraphRepository.getEntityId (SqliteGraphRepository.getOrCreateEntityId db n ty).1 m =
        SqliteGraphRepository.getEntityId db m) ∧
    (SqliteGraphRepository.getOrCreateEntityId db n ty).1.rels = db.rels ∧
    (SqliteGraphRepository.getOrCreateEntityId db n ty).1.obs = db.obs ∧
    (SqliteGraphRepository.getOrCreateEntityId db n ty).1.vecs = db.vecs ∧
    (∀ e ∈ db.entities, e ∈ (SqliteGraphRepository.getOrCreateEntityId db n ty).1.entities) ∧
    (SqliteGraphRepository.getEntityId db n = none →
      ∀ o ∈ db.obs, o.entityId ≠ (SqliteGraphRepository.getOrCreateEntityId db n ty).2) ∧
    (∀ e ∈ (SqliteGraphRepository.getOrCreateEntityId db n ty).1.entities,
      e ∈ db.entities ∨ db.nextEntityId ≤ e.id) ∧
    db.nextEntityId ≤ (SqliteGraphRepository.getOrCreateEntityId db n ty).1.nextEntityId ∧
    (SqliteGraphRepository.getOrCreateEntityId db n ty).1.dim = db.dim := by
  rcases hg : SqliteGraphRepository.getEntityId db n with _ | i
  · have hnames := getEntityId_none hg
    rw [getOrCreate_miss ty hg]
    refine ⟨?_, ?_, ?_, ?_, rfl, rfl, rfl, ?_, ?_, ?_, ?_, rfl⟩
    · constructor
      · rw [List.pairwise_append]
        refine ⟨hwf.entIdsNodup, by simp, ?_⟩
        intro a ha b hb
        rw [List.mem_singleton] at hb
        subst hb
        exact Nat.ne_of_lt (hwf.entIdsLt a ha)
      · rw [List.pairwise_append]
        refine ⟨hwf.entNamesNodup, by simp, ?_⟩
        intro a ha b hb
        rw [List.mem_singleton] at hb
        subst hb
        exact hnames a ha
      · intro e he
        rcases List.mem_append.mp he with h | h
        · exact hwf.entIdsPos e h
        · rw [List.mem_singleton] at h
          subst h
          exact hwf.nextEntPos
      · intro e he
        rcases List.mem_append.mp he with h | h
        · exact Nat.lt_succ_of_lt (hwf.entIdsLt e h)
        · rw [List.mem_singleton] at h
          subst h
          exact Nat.lt_succ_self _
      · exact Nat.lt_succ_of_lt hwf.nextEntPos
      · exact hwf.obsIdsNodup
      · exact hwf.obsPairsNodup
      · exact hwf.obsIdsLt
      · intro o ho
        obtain ⟨e, he, hei⟩ := hwf.obsEntFK o ho
        exact ⟨e, List.mem_append_left _ he, hei⟩
      · exact hwf.relTriplesNodup
      · intro r hr
        obtain ⟨⟨e₁, he₁, h₁⟩, ⟨e₂, he₂, h₂⟩⟩ := hwf.relEntFK r hr
        exact ⟨⟨e₁, List.mem_append_left _ he₁, h₁⟩, ⟨e₂, List.mem_append_left _ he₂, h₂⟩⟩
    · rw [getEntityId_push db _ _ n, hg]
      simp
    · intro m i hi
      rw [getEntityId_push db _ _ m, hi]
      rfl
    · intro m hm
      rw [getEntityId_push db _ _ m]
      rw [if_neg (show ¬({ id := db.nextEntityId, name := n, entityType := ty } :
          EntityRow).name = m from fun h => hm h.symm)]
      exact Option.or_none
    · intro e he
      exact List.mem_append_left _ he
    · intro _ o ho
      obtain ⟨e, he, hei⟩ := hwf.obsEntFK o ho
      rw [hei]
      exact Nat.ne_of_lt (hwf.entIdsLt e he)
    · intro e he
      rcases List.mem_append.mp he with h | h
      · exact Or.inl h
      · rw [List.mem_singleton] at h
        subst h
        exact Or.inr le_rfl
    · exact Nat.le_succ _
  · rw [getOrCreate_hit ty hg]
    exact ⟨hwf, hg, fun m j h => h, fun m _ => rfl, rfl, rfl, rfl, fun e he => he,
      fun h => absurd h (by simp), fun e he => Or.inl he, le_rfl, rfl⟩

/-! ## C7: relation idempotence -/

theorem createRelation_present {db : DB} {f t : ℕ} {ty : String}
    (h : RelPresent db f t ty) :
    SqliteGraphRepository.createRelation db f t ty = (db, false) := by
  obtain ⟨r, hr, h1, h2, h3⟩ := h
  unfold SqliteGraphRepository.createRelation
  rcases hf : db.rels.find? (relMatches f t ty) with _ | r'
  · exact absurd (by simp [relMatches, h1, h2, h3]) (List.find?_eq_none.mp hf r hr)
  · rfl

theorem createRelation_absent {db : DB} {f t : ℕ} {ty : String}
    (h : ¬ RelPresent db f t ty) :
    SqliteGraphRepository.createRelation db f t ty =
      ({ db with
          rels := db.rels ++ [{ id := db.nextRelId, fromId := f, toId := t, relationType := ty }],
          nextRelId := db.nextRelId + 1 }, true) := by
  unfold SqliteGraphRepository.createRelation
  rcases hf : db.rels.find? (relMatches f t ty) with _ | r
  · rfl
  · refine absurd ?_ h
    have hmem := List.mem_of_find?_eq_some hf
    have hp := List.find?_some hf
    unfold relMatches at hp
    simp only [Bool.and_eq_true, beq_iff_eq] at hp
    exact ⟨r, hmem, hp.1.1, hp.1.2, hp.2⟩

theorem relPresent_append {db : DB} {f t f' t' : ℕ} {ty ty' : String} {rid : ℕ} :
    RelPresent { db with
        rels := db.rels ++ [{ id := rid, fromId := f, toId := t, relationType := ty }],
        nextRelId := db.nextRelId + 1 } f' t' ty' ↔
      RelPresent db f' t' ty' ∨ (f' = f ∧ t' = t ∧ ty' = ty) := by
  unfold RelPresent
  constructor
  · rintro ⟨r, hr, h1, h2, h3⟩
    rcases List.mem_append.mp hr with h | h
    · exact Or.inl ⟨r, h, h1, h2, h3⟩
    · rw [List.mem_singleton] at h
      subst h
      exact Or.inr ⟨h1.symm, h2.symm, h3.symm⟩
  · rintro (⟨r, hr, h1, h2, h3⟩ | ⟨rfl, rfl, rfl⟩)
    · exact ⟨r, List.mem_append_left _ hr, h1, h2, h3⟩
    · exact ⟨_, List.mem_append_right _ (List.mem_singleton_self _), rfl, rfl, rfl⟩

theorem relCount_one_of_wf {db : DB} (hwf : WF db) {f t : ℕ} {ty : String}
    (h : RelPresent db f t ty) : relCount db f t ty = 1 := by
  obtain ⟨r, hr, h1, h2, h3⟩ := h
  have hpair : db.rels.Pairwise (fun a b =>
      (fun x : RelRow => (x.fromId, x.toId, x.relationType)) a ≠
      (fun x : RelRow => (x.fromId, x.toId, x.relationType)) b) := hwf.relTriplesNodup
  have hone := length_filter_key_eq_one (fun x : RelRow => (x.fromId, x.toId, x.relationType))
    hpair (f, t, ty) hr (by simp [h1, h2, h3])
  unfold relCount
  have hsame : db.rels.filter (relMatches f t ty) =
      db.rels.filter (fun a =>
        decide ((fun x : RelRow => (x.fromId, x.toId, x.relationType)) a = (f, t, ty))) := by
    apply List.filter_congr
    intro x _
    unfold relMatches
    apply Bool.eq_iff_iff.mpr
    simp [Prod.ext_iff, and_assoc]
  rw [hsame]
  exact hone

theorem relInput_ext {a b : KnowledgeGraphManager.RelInput}
    (h1 : a.fromName = b.fromName) (h2 : a.toName = b.toName)
    (h3 : a.relationType = b.relationType) : a = b := by
  cases a
  cases b
  simp_all

theorem getEntityId_inj {db : DB} (hwf : WF db) {m₁ m₂ : String} {i : ℕ}
    (h₁ : SqliteGraphRepository.getEntityId db m₁ = some i)
    (h₂ : SqliteGraphRepository.getEntityId db m₂ = some i) : m₁ = m₂ := by
  obtain ⟨e₁, he₁, hn₁, hi₁⟩ := getEntityId_eq_some h₁
  obtain ⟨e₂, he₂, hn₂, hi₂⟩ := getEntityId_eq_some h₂
  have := pairwise_key_inj (·.id) hwf.entIdsNodup he₁ he₂
    (show e₁.id = e₂.id by rw [hi₁, hi₂])
  rw [← hn₁, ← hn₂, this]

theorem getEntityId_of_mem {db : DB} (hwf : WF db) {e : EntityRow}
    (he : e ∈ db.entities) :
    SqliteGraphRepository.getEntityId db e.name = some e.id := by
  obtain ⟨j, hj⟩ := getEntityId_isSome he rfl
  obtain ⟨e', he', hn', hi'⟩ := getEntityId_eq_some hj
  have := pairwise_key_inj (·.name) hwf.entNamesNodup he' he hn'
  rw [hj, ← hi', this]

/-- The per-element step of `createRelations`: well-formedness is
preserved, the returned flag is `true` exactly when the name-level triple
was absent, and name-level presence afterwards equals presence before
extended by exactly the processed input. -/
theorem relationStep_spec (db : DB) (hwf : WF db) (r : KnowledgeGraphManager.RelInput) :
    WF (KnowledgeGraphManager.relationStep db r).1 ∧
    ((KnowledgeGraphManager.relationStep db r).2 = true ↔
      ¬ KnowledgeGraphManager.NameRelPresent db r) ∧
    (∀ r' : KnowledgeGraphManager.RelInput,
      KnowledgeGraphManager.NameRelPresent (KnowledgeGraphManager.relationStep db r).1 r' ↔
        KnowledgeGraphManager.NameRelPresent db r' ∨ r' = r) := by
  obtain ⟨hwfA, hresA, hpresA, hothA, hrelsA, hobsA, hvecsA, hsupA, hfreshA, hbackA, hmonoA, hdimA⟩ :=
    getOrCreate_spec db hwf r.fromName "Unknown"
  obtain ⟨hwfB, hresB, hpresB, hothB, hrelsB, hobsB, hvecsB, hsupB, hfreshB, hbackB, hmonoB, hdimB⟩ :=
    getOrCreate_spec (SqliteGraphRepository.getOrCreateEntityId db r.fromName "Unknown").1 hwfA
      r.toName "Unknown"
  -- the intermediate state after both resolutions, and the two ids
  set db₂ := (SqliteGraphRepository.getOrCreateEntityId
    (SqliteGraphRepository.getOrCreateEntityId db r.fromName "Unknown").1 r.toName "Unknown").1 with hdb₂
  set fid := (SqliteGraphRepository.getOrCreateEntityId db r.fromName "Unknown").2 with hfid
  set tid := (SqliteGraphRepository.getOrCreateEntityId
    (SqliteGraphRepository.getOrCreateEntityId db r.fromName "Unknown").1 r.toName "Unknown").2 with htid
  have hstepdef : KnowledgeGraphManager.relationStep db r =
      SqliteGraphRepository.createRelation db₂ fid tid r.relationType := rfl
  have hF2 : SqliteGraphRepository.getEntityId db₂ r.fromName = some fid := hpresB _ _ hresA
  have hF3 : SqliteGraphRepository.getEntityId db₂ r.toName = some tid := hresB
  have hF4 : db₂.rels = db.rels := hrelsB.trans hrelsA
  have hpresAB : ∀ m i, SqliteGraphRepository.getEntityId db m = some i →
      SqliteGraphRepository.getEntityId db₂ m = some i :=
    fun m i h => hpresB m i (hpresA m i h)
  -- backward resolution: an id resolvable in db₂ is either resolvable in db
  -- or entirely fresh (referenced by no relation row of db)
  have hback : ∀ m i, SqliteGraphRepository.getEntityId db₂ m = some i →
      SqliteGraphRepository.getEntityId db m = some i ∨
        ∀ rr ∈ db.rels, rr.fromId ≠ i ∧ rr.toId ≠ i := by
    intro m i hi
    obtain ⟨e, he2, hen, hei⟩ := getEntityId_eq_some hi
    have hcases : e ∈ db.entities ∨ db.nextEntityId ≤ e.id := by
      rcases hbackB e he2 with h1 | h1
      · exact hbackA e h1
      · exact Or.inr (le_trans hmonoA h1)
    rcases hcases with hmem | hge
    · left
      have := getEntityId_of_mem hwf hmem
      rw [hen, hei] at this
      exact this
    · right
      intro rr hrr
      obtain ⟨⟨e₁, he₁, h₁⟩, ⟨e₂, he₂, h₂⟩⟩ := hwf.relEntFK rr hrr
      constructor
      · rw [h₁, ← hei]
        exact Nat.ne_of_lt (lt_of_lt_of_le (hwf.entIdsLt e₁ he₁) hge)
      · rw [h₂, ← hei]
        exact Nat.ne_of_lt (lt_of_lt_of_le (hwf.entIdsLt e₂ he₂) hge)
  -- a name resolving in db₂ to an id that some db relation row references
  -- must already resolve in db
  have hbackRef : ∀ m i, SqliteGraphRepository.getEntityId db₂ m = some i →
      (∃ rr ∈ db.rels, rr.fromId = i ∨ rr.toId = i) →
      SqliteGraphRepository.getEntityId db m = some i := by
    intro m i hi href
    rcases hback m i hi with h | h
    · exact h
    · obtain ⟨rr, hrr, hror⟩ := href
      rcases hror with h1 | h1
      · exact absurd h1 (h rr hrr).1
      · exact absurd h1 (h rr hrr).2
  by_cases hp : RelPresent db₂ fid tid r.relationType
  · -- the triple already exists: the insert is a no-op returning false
    have hstep : KnowledgeGraphManager.relationStep db r = (db₂, false) :=
      hstepdef.trans (createRelation_present hp)
    have hpdb : RelPresent db fid tid r.relationType := by
      unfold RelPresent at hp ⊢
      rw [← hF4]
      exact hp
    have hnamepr : KnowledgeGraphManager.NameRelPresent db r := by
      obtain ⟨rr, hrr, hh1, hh2, hh3⟩ := hpdb
      exact ⟨fid, tid,
        hbackRef _ _ hF2 ⟨rr, hrr, Or.inl hh1⟩,
        hbackRef _ _ hF3 ⟨rr, hrr, Or.inr hh2⟩, rr, hrr, hh1, hh2, hh3⟩
    rw [hstep]
    refine ⟨hwfB, ?_, ?_⟩
    · simp only [Bool.false_eq_true, false_iff, not_not]
      exact hnamepr
    · intro r'
      constructor
      · rintro ⟨f', t', hf', ht', hpp⟩
        left
        have hppdb : RelPresent db f' t' r'.relationType := by
          unfold RelPresent at hpp ⊢
          rw [← hF4]
          exact hpp
        obtain ⟨rr, hrr, hh1, hh2, hh3⟩ := hppdb
        exact ⟨f', t',
          hbackRef _ _ hf' ⟨rr, hrr, Or.inl hh1⟩,
          hbackRef _ _ ht' ⟨rr, hrr, Or.inr hh2⟩, rr, hrr, hh1, hh2, hh3⟩
      · rintro (⟨f', t', hf', ht', hpp⟩ | rfl)
        · refine ⟨f', t', hpresAB _ _ hf', hpresAB _ _ ht', ?_⟩
          unfold RelPresent at hpp ⊢
          rw [hF4]
          exact hpp
        · exact ⟨fid, tid, hF2, hF3, hp⟩
  · -- the triple is new: it is appended and true is returned
    have hstep := hstepdef.trans (createRelation_absent hp)
    have hnonamepr : ¬ KnowledgeGraphManager.NameRelPresent db r := by
      rintro ⟨f', t', hf', ht', hpp⟩
      have hf2 := hpresAB _ _ hf'
      have ht2 := hpresAB _ _ ht'
      rw [hF2] at hf2
      rw [hF3] at ht2
      injection hf2 with hf2
      injection ht2 with ht2
      refine hp ?_
      unfold RelPresent at hpp ⊢
      rw [hF4, hf2, ht2]
      exact hpp
    have hentEq : ∀ m, SqliteGraphRepository.getEntityId
        (KnowledgeGraphManager.relationStep db r).1 m =
        SqliteGraphRepository.getEntityId db₂ m := by
      intro m
      rw [hstep]
      exact getEntityId_only_entities rfl m
    have hrelApp : ∀ f' t' ty',
        RelPresent (KnowledgeGraphManager.relationStep db r).1 f' t' ty' ↔
          RelPresent db₂ f' t' ty' ∨ (f' = fid ∧ t' = tid ∧ ty' = r.relationType) := by
      intro f' t' ty'
      rw [hstep]
      exact relPresent_append
    refine ⟨?_, ?_, ?_⟩
    · rw [hstep]
      constructor
      · exact hwfB.entIdsNodup
      · exact hwfB.entNamesNodup
      · exact hwfB.entIdsPos
      · exact hwfB.entIdsLt
      · exact hwfB.nextEntPos
      · exact hwfB.obsIdsNodup
      · exact hwfB.obsPairsNodup
      · exact hwfB.obsIdsLt
      · exact hwfB.obsEntFK
      · rw [List.pairwise_append]
        refine ⟨hwfB.relTriplesNodup, by simp, ?_⟩
        intro a ha b hb
        rw [List.mem_singleton] at hb
        subst hb
        intro hcontra
        refine hp ⟨a, ha, ?_⟩
        have h1 : a.fromId = fid := congrArg Prod.fst hcontra
        have h23 := congrArg Prod.snd hcontra
        have h2 : a.toId = tid := congrArg Prod.fst h23
        have h3 : a.relationType = r.relationType := congrArg Prod.snd h23
        exact ⟨h1, h2, h3⟩
      · intro rr hrr
        rcases List.mem_append.mp hrr with h | h
        · exact hwfB.relEntFK rr h
        · rw [List.mem_singleton] at h
          subst h
          obtain ⟨ef, hef, _, heif⟩ := getEntityId_eq_some hF2
          obtain ⟨et, het, _, heit⟩ := getEntityId_eq_some hF3
          exact ⟨⟨ef, hef, heif.symm⟩, ⟨et, het, heit.symm⟩⟩
    · rw [hstep]
      simp only [true_iff]
      exact hnonamepr
    · intro r'
      constructor
      · rintro ⟨f', t', hf', ht', hpp⟩
        rw [hentEq] at hf' ht'
        rcases (hrelApp f' t' r'.relationType).mp hpp with hold | ⟨rfl, rfl, htyeq⟩
        · left
          have holddb : RelPresent db f' t' r'.relationType := by
            unfold RelPresent at hold ⊢
            rw [← hF4]
            exact hold
          obtain ⟨rr, hrr, hh1, hh2, hh3⟩ := holddb
          exact ⟨f', t',
            hbackRef _ _ hf' ⟨rr, hrr, Or.inl hh1⟩,
            hbackRef _ _ ht' ⟨rr, hrr, Or.inr hh2⟩, rr, hrr, hh1, hh2, hh3⟩
        · right
          exact relInput_ext (getEntityId_inj hwfB hf' hF2)
            (getEntityId_inj hwfB ht' hF3) htyeq
      · rintro (⟨f', t', hf', ht', hpp⟩ | rfl)
        · refine ⟨f', t', ?_, ?_, ?_⟩
          · rw [hentEq]
            exact hpresAB _ _ hf'
          · rw [hentEq]
            exact hpresAB _ _ ht'
          · apply (hrelApp f' t' r'.relationType).mpr
            left
            unfold RelPresent at hpp ⊢
            rw [hF4]
            exact hpp
        · refine ⟨fid, tid, ?_, ?_, ?_⟩
          · rw [hentEq]
            exact hF2
          · rw [hentEq]
            exact hF3
          · exact (hrelApp fid tid r'.relationType).mpr (Or.inr ⟨rfl, rfl, rfl⟩)

theorem relCount_zero {db : DB} {f t : ℕ} {ty : String}
    (h : ¬ RelPresent db f t ty) : relCount db f t ty = 0 := by
  unfold relCount
  rw [List.length_eq_zero]
  apply List.filter_eq_nil_iff.mpr
  intro a ha hmatch
  unfold relMatches at hmatch
  simp only [Bool.and_eq_true, beq_iff_eq] at hmatch
  exact h ⟨a, ha, hmatch.1.1, hmatch.1.2, hmatch.2⟩

/-- C7: relation insertion is idempotent on the (from, to, type) triple:
`createRelation` returns `true` exactly when the triple did not previously
exist (a re-insertion returns `false` and leaves the state, hence the
single stored row, unchanged; a fresh insertion stores exactly one row),
and `createRelations` returns exactly the subset of its inputs whose
resolved triple was new, in input order. -/
theorem C7_relation_idempotent (db : DB) (hwf : WF db) :
    (∀ f t ty, RelPresent db f t ty →
      SqliteGraphRepository.createRelation db f t ty = (db, false) ∧
        relCount db f t ty = 1) ∧
    (∀ f t ty, ¬ RelPresent db f t ty →
      (SqliteGraphRepository.createRelation db f t ty).2 = true ∧
        relCount (SqliteGraphRepository.createRelation db f t ty).1 f t ty = 1) ∧
    (∀ l : List KnowledgeGraphManager.RelInput,
      (KnowledgeGraphManager.createRelations db l).2.Sublist l ∧
      (∀ r', r' ∈ (KnowledgeGraphManager.createRelations db l).2 ↔
        r' ∈ l ∧ ¬ KnowledgeGraphManager.NameRelPresent db r')) := by
  have hmain : ∀ (l : List KnowledgeGraphManager.RelInput) (db : DB), WF db →
      (KnowledgeGraphManager.createRelations db l).2.Sublist l ∧
      (∀ r', r' ∈ (KnowledgeGraphManager.createRelations db l).2 ↔
        r' ∈ l ∧ ¬ KnowledgeGraphManager.NameRelPresent db r') := by
    intro l
    induction l with
    | nil =>
      intro db _
      exact ⟨List.Sublist.refl _, by simp [KnowledgeGraphManager.createRelations]⟩
    | cons r₀ rest ih =>
      intro db hwf
      obtain ⟨hwfS, hboolS, hcharS⟩ := relationStep_spec db hwf r₀
      obtain ⟨hsub, hiff⟩ := ih (KnowledgeGraphManager.relationStep db r₀).1 hwfS
      by_cases hc : (KnowledgeGraphManager.relationStep db r₀).2 = true
      · have hnew : ¬ KnowledgeGraphManager.NameRelPresent db r₀ := hboolS.mp hc
        have hlist : (KnowledgeGraphManager.createRelations db (r₀ :: rest)).2 =
            r₀ :: (KnowledgeGraphManager.createRelations
              (KnowledgeGraphManager.relationStep db r₀).1 rest).2 := by
          show (if (KnowledgeGraphManager.relationStep db r₀).2 = true then _ else _) = _
          rw [if_pos hc]
        refine ⟨?_, ?_⟩
        · rw [hlist]
          exact hsub.cons₂ r₀
        · intro r'
          rw [hlist]
          constructor
          · intro hL
            rcases List.mem_cons.mp hL with rfl | hL'
            · exact ⟨List.mem_cons_self _ _, hnew⟩
            · obtain ⟨hmem, hnp⟩ := (hiff r').mp hL'
              have hnp' := (not_congr (hcharS r')).mp hnp
              exact ⟨List.mem_cons_of_mem _ hmem, fun h => hnp' (Or.inl h)⟩
          · rintro ⟨hor, hnp⟩
            rcases List.mem_cons.mp hor with rfl | hmem
            · exact List.mem_cons_self _ _
            · by_cases he : r' = r₀
              · rw [he]
                exact List.mem_cons_self _ _
              · apply List.mem_cons_of_mem
                apply (hiff r').mpr
                exact ⟨hmem, (not_congr (hcharS r')).mpr (fun h => h.elim hnp he)⟩
      · have hpres : KnowledgeGraphManager.NameRelPresent db r₀ :=
          not_not.mp (mt hboolS.mpr hc)
        have hlist : (KnowledgeGraphManager.createRelations db (r₀ :: rest)).2 =
            (KnowledgeGraphManager.createRelations
              (KnowledgeGraphManager.relationStep db r₀).1 rest).2 := by
          show (if (KnowledgeGraphManager.relationStep db r₀).2 = true then _ else _) = _
          rw [if_neg hc]
        refine ⟨?_, ?_⟩
        · rw [hlist]
          exact hsub.cons r₀
        · intro r'
          rw [hlist]
          constructor
          · intro hL
            obtain ⟨hmem, hnp⟩ := (hiff r').mp hL
            have hnp' := (not_congr (hcharS r')).mp hnp
            exact ⟨List.mem_cons_of_mem _ hmem, fun h => hnp' (Or.inl h)⟩
          · rintro ⟨hor, hnp⟩
            rcases List.mem_cons.mp hor with rfl | hmem
            · exact absurd hpres hnp
            · apply (hiff r').mpr
              refine ⟨hmem, (not_congr (hcharS r')).mpr ?_⟩
              rintro (h | rfl)
              · exact hnp h
              · exact hnp hpres
  refine ⟨?_, ?_, fun l => hmain l db hwf⟩
  · intro f t ty hp
    exact ⟨createRelation_present hp, relCount_one_of_wf hwf hp⟩
  · intro f t ty hp
    rw [createRelation_absent hp]
    refine ⟨rfl, ?_⟩
    unfold relCount
    show (List.filter _ (db.rels ++ _)).length = 1
    rw [List.filter_append]
    have h0 : db.rels.filter (relMatches f t ty) = [] := by
      rw [← List.length_eq_zero]
      exact relCount_zero hp
    rw [h0]
    simp [relMatches]

/-- Witness for C7: on a concrete store the second insertion of a triple
returns false and preserves the single row; a duplicated input appears
only once in the createRelations result. -/
theorem C7_witness :
    (SqliteGraphRepository.createRelation
      { entities := [{ id := 1, name := "A", entityType := "T" },
                     { id := 2, name := "B", entityType := "T" }],
        nextEntityId := 3,
        rels := [{ id := 1, fromId := 1, toId := 2, relationType := "knows" }],
        nextRelId := 2 : DB } 1 2 "knows" =
      ({ entities := [{ id := 1, name := "A", entityType := "T" },
                      { id := 2, name := "B", entityType := "T" }],
         nextEntityId := 3,
         rels := [{ id := 1, fromId := 1, toId := 2, relationType := "knows" }],
         nextRelId := 2 : DB }, false)) ∧
    ({ fromName := "A", toName := "B", relationType := "knows" :
        KnowledgeGraphManager.RelInput } ∉
      (KnowledgeGraphManager.createRelations
        { entities := [{ id := 1, name := "A", entityType := "T" },
                       { id := 2, name := "B", entityType := "T" }],
          nextEntityId := 3,
          rels := [{ id := 1, fromId := 1, toId := 2, relationType := "knows" }],
          nextRelId := 2 : DB }
        [{ fromName := "A", toName := "B", relationType := "knows" }]).2) := by
  have h := C7_relation_idempotent
    { entities := [{ id := 1, name := "A", entityType := "T" },
                   { id := 2, name := "B", entityType := "T" }],
      nextEntityId := 3,
      rels := [{ id := 1, fromId := 1, toId := 2, relationType := "knows" }],
      nextRelId := 2 : DB }
    (by constructor <;> decide)
  refine ⟨(h.1 1 2 "knows" ⟨{ id := 1, fromId := 1, toId := 2, relationType := "knows" },
    by decide, rfl, rfl, rfl⟩).1, ?_⟩
  intro hmem
  have := ((h.2.2 _).2 _).mp hmem
  exact this.2 ⟨1, 2, by decide, by decide,
    ⟨{ id := 1, fromId := 1, toId := 2, relationType := "knows" }, by decide, rfl, rfl, rfl⟩⟩

/-! ## C1: addObservations idempotence and exact embedding -/

theorem insertObservation_present {db : DB} {eid : ℕ} {c : String}
    (h : ObsPresent db eid c) :
    ∃ oid, SqliteGraphRepository.insertObservation db eid c = (db, false, some oid) := by
  obtain ⟨o, ho, h1, h2⟩ := h
  unfold SqliteGraphRepository.insertObservation
  rcases hf : db.obs.find? (obsMatches eid c) with _ | o'
  · exact absurd (by simp [obsMatches, h1, h2]) (List.find?_eq_none.mp hf o ho)
  · exact ⟨o'.id, rfl⟩

theorem insertObservation_absent {db : DB} {eid : ℕ} {c : String}
    (h : ¬ ObsPresent db eid c) :
    SqliteGraphRepository.insertObservation db eid c =
      ({ db with
          obs := db.obs ++ [{ id := db.nextObsId, entityId := eid, content := c }],
          nextObsId := db.nextObsId + 1 },
       true, some db.nextObsId) := by
  unfold SqliteGraphRepository.insertObservation
  rcases hf : db.obs.find? (obsMatches eid c) with _ | o
  · rfl
  · refine absurd ?_ h
    have hmem := List.mem_of_find?_eq_some hf
    have hp := List.find?_some hf
    unfold obsMatches at hp
    simp only [Bool.and_eq_true, beq_iff_eq] at hp
    exact ⟨o, hmem, hp.1, hp.2⟩

theorem obsPresent_only_obs {db db' : DB} (h : db'.obs = db.obs) (eid : ℕ) (c : String) :
    ObsPresent db' eid c ↔ ObsPresent db eid c := by
  unfold ObsPresent
  rw [h]

theorem obsPresent_append {db : DB} {eid : ℕ} {c : String} {oid k : ℕ} (eid' : ℕ) (c' : String) :
    ObsPresent { db with
        obs := db.obs ++ [{ id := oid, entityId := eid, content := c }],
        nextObsId := k } eid' c' ↔
      ObsPresent db eid' c' ∨ (eid' = eid ∧ c' = c) := by
  unfold ObsPresent
  constructor
  · rintro ⟨o, ho, h1, h2⟩
    rcases List.mem_append.mp ho with h | h
    · exact Or.inl ⟨o, h, h1, h2⟩
    · rw [List.mem_singleton] at h
      subst h
      exact Or.inr ⟨h1.symm, h2.symm⟩
  · rintro (⟨o, ho, h1, h2⟩ | ⟨rfl, rfl⟩)
    · exact ⟨o, List.mem_append_left _ ho, h1, h2⟩
    · exact ⟨_, List.mem_append_right _ (List.mem_singleton_self _), rfl, rfl⟩

theorem insertObservation_wf {db : DB} {eid : ℕ} {c : String} (hwf : WF db)
    (hent : ∃ e ∈ db.entities, eid = e.id) (h : ¬ ObsPresent db eid c) :
    WF { db with
        obs := db.obs ++ [{ id := db.nextObsId, entityId := eid, content := c }],
        nextObsId := db.nextObsId + 1 } := by
  constructor
  · exact hwf.entIdsNodup
  · exact hwf.entNamesNodup
  · exact hwf.entIdsPos
  · exact hwf.entIdsLt
  · exact hwf.nextEntPos
  · rw [List.pairwise_append]
    refine ⟨hwf.obsIdsNodup, by simp, ?_⟩
    intro a ha b hb
    rw [List.mem_singleton] at hb
    subst hb
    exact Nat.ne_of_lt (hwf.obsIdsLt a ha)
  · rw [List.pairwise_append]
    refine ⟨hwf.obsPairsNodup, by simp, ?_⟩
    intro a ha b hb
    rw [List.mem_singleton] at hb
    subst hb
    intro hcontra
    refine h ⟨a, ha, ?_, ?_⟩
    · exact congrArg Prod.fst hcontra
    · exact congrArg Prod.snd hcontra
  · intro o ho
    rcases List.mem_append.mp ho with hm | hm
    · exact Nat.lt_succ_of_lt (hwf.obsIdsLt o hm)
    · rw [List.mem_singleton] at hm
      subst hm
      exact Nat.lt_succ_self _
  · intro o ho
    rcases List.mem_append.mp ho with hm | hm
    · exact hwf.obsEntFK o hm
    · rw [List.mem_singleton] at hm
      subst hm
      obtain ⟨e, he, hei⟩ := hent
      exact ⟨e, he, hei⟩
  · exact hwf.relTriplesNodup
  · exact hwf.relEntFK

theorem obsCount_one_of_wf {db : DB} (hwf : WF db) {eid : ℕ} {c : String}
    (h : ObsPresent db eid c) : obsCount db eid c = 1 := by
  obtain ⟨o, ho, h1, h2⟩ := h
  have hpair : db.obs.Pairwise (fun a b =>
      (fun x : ObsRow => (x.entityId, x.content)) a ≠
      (fun x : ObsRow => (x.entityId, x.content)) b) := hwf.obsPairsNodup
  have hone := length_filter_key_eq_one (fun x : ObsRow => (x.entityId, x.content))
    hpair (eid, c) ho (by simp [h1, h2])
  unfold obsCount
  have hsame : db.obs.filter (obsMatches eid c) =
      db.obs.filter (fun a =>
        decide ((fun x : ObsRow => (x.entityId, x.content)) a = (eid, c))) := by
    apply List.filter_congr
    intro x _
    unfold obsMatches
    apply Bool.eq_iff_iff.mpr
    simp [Prod.ext_iff]
  rw [hsame]
  exact hone

/-- Invariant of the content-insertion loop of `addObservations`: the
state is only extended with observation rows of the processed entity,
well-formedness is preserved, and the collected contents are exactly the
contents that were absent at call time, without duplicates and in input
order. -/
theorem insertObsLoop_spec : ∀ (cs : List String) (db : DB) (eid : ℕ), WF db →
    (∃ e ∈ db.entities, eid = e.id) →
    WF (KnowledgeGraphManager.insertObsLoop db eid cs).1 ∧
    (KnowledgeGraphManager.insertObsLoop db eid cs).1.entities = db.entities ∧
    (KnowledgeGraphManager.insertObsLoop db eid cs).1.rels = db.rels ∧
    (KnowledgeGraphManager.insertObsLoop db eid cs).1.vecs = db.vecs ∧
    (KnowledgeGraphManager.insertObsLoop db eid cs).1.dim = db.dim ∧
    (∀ eid' c', ObsPresent (KnowledgeGraphManager.insertObsLoop db eid cs).1 eid' c' ↔
      ObsPresent db eid' c' ∨ (eid' = eid ∧ c' ∈ cs)) ∧
    (∀ c, c ∈ (KnowledgeGraphManager.insertObsLoop db eid cs).2.map (·.2) ↔
      c ∈ cs ∧ ¬ ObsPresent db eid c) ∧
    ((KnowledgeGraphManager.insertObsLoop db eid cs).2.map (·.2)).Nodup ∧
    ((KnowledgeGraphManager.insertObsLoop db eid cs).2.map (·.2)).Sublist cs := by
  intro cs
  induction cs with
  | nil =>
    intro db eid hwf _
    refine ⟨hwf, rfl, rfl, rfl, rfl, ?_, by simp [KnowledgeGraphManager.insertObsLoop], ?_, ?_⟩
    · intro eid' c'
      simp [KnowledgeGraphManager.insertObsLoop]
    · simp [KnowledgeGraphManager.insertObsLoop]
    · simp [KnowledgeGraphManager.insertObsLoop]
  | cons c cs ih =>
    intro db eid hwf hent
    by_cases hc : ObsPresent db eid c
    · obtain ⟨oid, hoid⟩ := insertObservation_present hc
      have hstep : KnowledgeGraphManager.insertObsLoop db eid (c :: cs) =
          KnowledgeGraphManager.insertObsLoop db eid cs := by
        show (let step := SqliteGraphRepository.insertObservation db eid c
              let rest := KnowledgeGraphManager.insertObsLoop step.1 eid cs
              match step.2.1, step.2.2 with
              | true, some oid => (rest.1, (oid, c) :: rest.2)
              | _, _ => (rest.1, rest.2)) = KnowledgeGraphManager.insertObsLoop db eid cs
        rw [hoid]
      obtain ⟨ihwf, ihent, ihrels, ihvecs, ihdim, ihpres, ihmem, ihnd, ihsub⟩ :=
        ih db eid hwf hent
      rw [hstep]
      refine ⟨ihwf, ihent, ihrels, ihvecs, ihdim, ?_, ?_, ihnd, ihsub.cons c⟩
      · intro eid' c'
        rw [ihpres eid' c']
        constructor
        · rintro (h | ⟨rfl, hm⟩)
          · exact Or.inl h
          · exact Or.inr ⟨rfl, List.mem_cons_of_mem _ hm⟩
        · rintro (h | ⟨rfl, hm⟩)
          · exact Or.inl h
          · rcases List.mem_cons.mp hm with rfl | hm'
            · exact Or.inl hc
            · exact Or.inr ⟨rfl, hm'⟩
      · intro c'
        rw [ihmem c']
        constructor
        · rintro ⟨hm, hnp⟩
          exact ⟨List.mem_cons_of_mem _ hm, hnp⟩
        · rintro ⟨hm, hnp⟩
          rcases List.mem_cons.mp hm with rfl | hm'
          · exact absurd hc hnp
          · exact ⟨hm', hnp⟩
    · have hstep : KnowledgeGraphManager.insertObsLoop db eid (c :: cs) =
          ((KnowledgeGraphManager.insertObsLoop
            { db with
                obs := db.obs ++ [{ id := db.nextObsId, entityId := eid, content := c }],
                nextObsId := db.nextObsId + 1 } eid cs).1,
           (db.nextObsId, c) ::
            (KnowledgeGraphManager.insertObsLoop
              { db with
                  obs := db.obs ++ [{ id := db.nextObsId, entityId := eid, content := c }],
                  nextObsId := db.nextObsId + 1 } eid cs).2) := by
        show (let step := SqliteGraphRepository.insertObservation db eid c
              let rest := KnowledgeGraphManager.insertObsLoop step.1 eid cs
              match step.2.1, step.2.2 with
              | true, some oid => (rest.1, (oid, c) :: rest.2)
              | _, _ => (rest.1, rest.2)) = _
        rw [insertObservation_absent hc]
      have hwf1 := insertObservation_wf hwf hent hc
      obtain ⟨ihwf, ihent, ihrels, ihvecs, ihdim, ihpres, ihmem, ihnd, ihsub⟩ :=
        ih { db with
            obs := db.obs ++ [{ id := db.nextObsId, entityId := eid, content := c }],
            nextObsId := db.nextObsId + 1 } eid hwf1 hent
      rw [hstep]
      refine ⟨ihwf, ihent, ihrels, ihvecs, ihdim, ?_, ?_, ?_, ?_⟩
      · intro eid' c'
        rw [ihpres eid' c', obsPresent_append eid' c']
        constructor
        · rintro ((h | ⟨rfl, rfl⟩) | ⟨rfl, hm⟩)
          · exact Or.inl h
          · exact Or.inr ⟨rfl, List.mem_cons_self _ _⟩
          · exact Or.inr ⟨rfl, List.mem_cons_of_mem _ hm⟩
        · rintro (h | ⟨rfl, hm⟩)
          · exact Or.inl (Or.inl h)
          · rcases List.mem_cons.mp hm with rfl | hm'
            · exact Or.inl (Or.inr ⟨rfl, rfl⟩)
            · exact Or.inr ⟨rfl, hm'⟩
      · intro c'
        rw [List.map_cons, List.mem_cons, ihmem c']
        constructor
        · rintro (rfl | ⟨hm, hnp⟩)
          · exact ⟨List.mem_cons_self _ _, hc⟩
          · refine ⟨List.mem_cons_of_mem _ hm, fun hp => hnp ?_⟩
            rw [obsPresent_append eid c']
            exact Or.inl hp
        · rintro ⟨hm, hnp⟩
          rcases List.mem_cons.mp hm with rfl | hm'
          · exact Or.inl rfl
          · by_cases hcc : c' = c
            · exact Or.inl hcc
            · right
              refine ⟨hm', fun hp => ?_⟩
              rw [obsPresent_append eid c'] at hp
              rcases hp with hp | ⟨_, h2⟩
              · exact hnp hp
              · exact hcc h2
      · rw [List.map_cons]
        rw [List.nodup_cons]
        refine ⟨?_, ihnd⟩
        intro hmem
        have := (ihmem c).mp hmem
        refine this.2 ?_
        rw [obsPresent_append eid c]
        exact Or.inr ⟨rfl, rfl⟩
      · rw [List.map_cons]
        exact ihsub.cons₂ c

theorem getEntityId_some_mem {db : DB} {n : String} {i : ℕ}
    (h : SqliteGraphRepository.getEntityId db n = some i) :
    ∃ e ∈ db.entities, i = e.id := by
  unfold SqliteGraphRepository.getEntityId at h
  rcases hf : db.entities.find? (fun e => e.name == n) with _ | e
  · rw [hf] at h
    exact absurd h (by simp)
  · rw [hf] at h
    exact ⟨e, List.mem_of_find?_eq_some hf, (Option.some.inj h).symm⟩

theorem obsCount_only_obs {db db' : DB} (h : db'.obs = db.obs) (eid : ℕ) (c : String) :
    obsCount db' eid c = obsCount db eid c := by
  unfold obsCount
  rw [h]

theorem obsCountName_congr {db db' : DB} (he : db'.entities = db.entities)
    (ho : db'.obs = db.obs) (n : String) (c : String) :
    obsCountName db' n c = obsCountName db n c := by
  unfold obsCountName
  rw [getEntityId_only_entities he n]
  rcases SqliteGraphRepository.getEntityId db n with _ | i
  · rfl
  · exact obsCount_only_obs ho i c

theorem insertObservationVectors_ok {db : DB} {rows : List VecRow}
    (hdim : ∀ r ∈ rows, r.embedding.length = db.dim) :
    (SqliteGraphRepository.insertObservationVectors db rows).2 = none := by
  unfold SqliteGraphRepository.insertObservationVectors
  by_cases hemp : rows.isEmpty
  · rw [if_pos hemp]
  · rw [if_neg hemp]
    obtain ⟨vs, hvs⟩ := applyVecRows_ok db.dim rows hdim db.vecs
    rw [hvs]

theorem insertObservationVectors_state (db : DB) (rows : List VecRow) :
    (SqliteGraphRepository.insertObservationVectors db rows).1.entities = db.entities ∧
    (SqliteGraphRepository.insertObservationVectors db rows).1.obs = db.obs ∧
    (SqliteGraphRepository.insertObservationVectors db rows).1.rels = db.rels ∧
    (SqliteGraphRepository.insertObservationVectors db rows).1.nextEntityId = db.nextEntityId ∧
    (SqliteGraphRepository.insertObservationVectors db rows).1.nextObsId = db.nextObsId ∧
    (SqliteGraphRepository.insertObservationVectors db rows).1.dim = db.dim := by
  unfold SqliteGraphRepository.insertObservationVectors
  by_cases hemp : rows.isEmpty
  · rw [if_pos hemp]
    exact ⟨rfl, rfl, rfl, rfl, rfl, rfl⟩
  · rw [if_neg hemp]
    rcases SqliteGraphRepository.applyVecRows db.dim db.vecs rows with e | vs
    · exact ⟨rfl, rfl, rfl, rfl, rfl, rfl⟩
    · exact ⟨rfl, rfl, rfl, rfl, rfl, rfl⟩

theorem WF_transfer {db db' : DB} (hwf : WF db)
    (he : db'.entities = db.entities) (ho : db'.obs = db.obs) (hr : db'.rels = db.rels)
    (hne : db'.nextEntityId = db.nextEntityId) (hno : db'.nextObsId = db.nextObsId) :
    WF db' := by
  constructor
  · rw [he]; exact hwf.entIdsNodup
  · rw [he]; exact hwf.entNamesNodup
  · rw [he]; exact hwf.entIdsPos
  · rw [he, hne]; exact hwf.entIdsLt
  · rw [hne]; exact hwf.nextEntPos
  · rw [ho]; exact hwf.obsIdsNodup
  · rw [ho]; exact hwf.obsPairsNodup
  · rw [ho, hno]; exact hwf.obsIdsLt
  · rw [ho, he]; exact hwf.obsEntFK
  · rw [hr]; exact hwf.relTriplesNodup
  · rw [hr, he]; exact hwf.relEntFK

theorem vecRows_map (eid : ℕ) (embed : String → List ℚ) (ps : List (ℕ × String)) :
    List.zipWith (fun (p : ℕ × String) emb =>
        { observationId := p.1, entityId := eid, embedding := emb : VecRow })
      ps ((ps.map (·.2)).map embed) =
      ps.map (fun p =>
        { observationId := p.1, entityId := eid, embedding := embed p.2 : VecRow }) := by
  induction ps with
  | nil => rfl
  | cons p ps ih =>
    simp only [List.map_cons, List.zipWith_cons_cons]
    rw [ih]

/-- `addObsEntry` in closed form: the state after the vector batch, the
result entry carrying exactly the newly inserted contents, the embedding
log (one invocation exactly when something was inserted) and the batch
error, with the vector rows keyed by the fresh observation ids. -/
theorem addObsEntry_eq (embed : String → List ℚ) (db : DB) (name : String)
    (cs : List String) :
    KnowledgeGraphManager.addObsEntry embed db name cs =
      ((SqliteGraphRepository.insertObservationVectors
          (KnowledgeGraphManager.insertObsLoop
            (SqliteGraphRepository.getOrCreateEntityId db name "Unknown").1
            (SqliteGraphRepository.getOrCreateEntityId db name "Unknown").2 cs).1
          (List.zipWith (fun (p : ℕ × String) emb =>
              { observationId := p.1,
                entityId := (SqliteGraphRepository.getOrCreateEntityId db name "Unknown").2,
                embedding := emb : VecRow })
            (KnowledgeGraphManager.insertObsLoop
              (SqliteGraphRepository.getOrCreateEntityId db name "Unknown").1
              (SqliteGraphRepository.getOrCreateEntityId db name "Unknown").2 cs).2
            (((KnowledgeGraphManager.insertObsLoop
              (SqliteGraphRepository.getOrCreateEntityId db name "Unknown").1
              (SqliteGraphRepository.getOrCreateEntityId db name "Unknown").2 cs).2.map
                (·.2)).map embed))).1,
       { entityName := name,
         addedObservations := (KnowledgeGraphManager.insertObsLoop
            (SqliteGraphRepository.getOrCreateEntityId db name "Unknown").1
            (SqliteGraphRepository.getOrCreateEntityId db name "Unknown").2 cs).2.map (·.2) },
       (if (KnowledgeGraphManager.insertObsLoop
            (SqliteGraphRepository.getOrCreateEntityId db name "Unknown").1
            (SqliteGraphRepository.getOrCreateEntityId db name "Unknown").2 cs).2.isEmpty
        then ([] : List (List String))
        else [(KnowledgeGraphManager.insertObsLoop
            (SqliteGraphRepository.getOrCreateEntityId db name "Unknown").1
            (SqliteGraphRepository.getOrCreateEntityId db name "Unknown").2 cs).2.map (·.2)]),
       (SqliteGraphRepository.insertObservationVectors
          (KnowledgeGraphManager.insertObsLoop
            (SqliteGraphRepository.getOrCreateEntityId db name "Unknown").1
            (SqliteGraphRepository.getOrCreateEntityId db name "Unknown").2 cs).1
          (List.zipWith (fun (p : ℕ × String) emb =>
              { observationId := p.1,
                entityId := (SqliteGraphRepository.getOrCreateEntityId db name "Unknown").2,
                embedding := emb : VecRow })
            (KnowledgeGraphManager.insertObsLoop
              (SqliteGraphRepository.getOrCreateEntityId db name "Unknown").1
              (SqliteGraphRepository.getOrCreateEntityId db name "Unknown").2 cs).2
            (((KnowledgeGraphManager.insertObsLoop
              (SqliteGraphRepository.getOrCreateEntityId db name "Unknown").1
              (SqliteGraphRepository.getOrCreateEntityId db name "Unknown").2 cs).2.map
                (·.2)).map embed))).2) := by
  by_cases hE : (KnowledgeGraphManager.insertObsLoop
      (SqliteGraphRepository.getOrCreateEntityId db name "Unknown").1
      (SqliteGraphRepository.getOrCreateEntityId db name "Unknown").2 cs).2.isEmpty
  · have hE' := List.isEmpty_iff.mp hE
    simp only [KnowledgeGraphManager.addObsEntry]
    rw [if_pos hE, if_pos hE, hE']
    rfl
  · simp only [KnowledgeGraphManager.addObsEntry]
    rw [if_neg hE, if_neg hE]

/-- Presence of an (entity, content) pair seen through the resolved id of
`getOrCreateEntityId` coincides with name-level presence in the original
state: on a hit the state and id are unchanged, and on a miss the fresh id
is not referenced by any stored observation. -/
theorem getOrCreate_obsPresent (db : DB) (hwf : WF db) (n ty : String) (c : String) :
    ObsPresent (SqliteGraphRepository.getOrCreateEntityId db n ty).1
      (SqliteGraphRepository.getOrCreateEntityId db n ty).2 c ↔ ObsPresentName db n c := by
  obtain ⟨hwfR, hres, hkeep, hother, hrelsR, hobsR, hvecsR, hsupR, hfreshR, hbackR, hmonoR,
    hdimR⟩ := getOrCreate_spec db hwf n ty
  rw [obsPresent_only_obs hobsR]
  rcases hg : SqliteGraphRepository.getEntityId db n with _ | i
  · constructor
    · rintro ⟨o, ho, h1, h2⟩
      exact absurd h1 (hfreshR hg o ho)
    · rintro ⟨eid, heid, hp⟩
      rw [hg] at heid
      cases heid
  · have h2 : (SqliteGraphRepository.getOrCreateEntityId db n ty).2 = i :=
      congrArg Prod.snd (getOrCreate_hit ty hg)
    rw [h2]
    constructor
    · intro hp
      exact ⟨i, hg, hp⟩
    · rintro ⟨eid, heid, hp⟩
      rw [hg] at heid
      injection heid with h3
      rw [h3]
      exact hp

/-- Behaviour of one `addObservations` entry: the vector batch succeeds
(no re-raised error), well-formedness is preserved, the result entry names
the entity and carries exactly the contents that were newly inserted
(without duplicates, in input order), the embedding function is invoked
exactly once on that subset (and not at all when it is empty), and
afterwards every requested content is stored exactly once. -/
theorem addObsEntry_spec (embed : String → List ℚ) (db : DB) (hwf : WF db)
    (hdim : ∀ s, (embed s).length = db.dim) (name : String) (cs : List String) :
    WF (KnowledgeGraphManager.addObsEntry embed db name cs).1 ∧
    (KnowledgeGraphManager.addObsEntry embed db name cs).2.2.2 = none ∧
    (KnowledgeGraphManager.addObsEntry embed db name cs).2.1.entityName = name ∧
    (KnowledgeGraphManager.addObsEntry embed db name cs).2.2.1 =
      (if (KnowledgeGraphManager.addObsEntry embed db name cs).2.1.addedObservations.isEmpty
       then []
       else [(KnowledgeGraphManager.addObsEntry embed db name cs).2.1.addedObservations]) ∧
    (∀ c, c ∈ (KnowledgeGraphManager.addObsEntry embed db name cs).2.1.addedObservations ↔
      c ∈ cs ∧ ¬ ObsPresentName db name c) ∧
    (KnowledgeGraphManager.addObsEntry embed db name cs).2.1.addedObservations.Nodup ∧
    (KnowledgeGraphManager.addObsEntry embed db name cs).2.1.addedObservations.Sublist cs ∧
    (∀ c ∈ cs, obsCountName (KnowledgeGraphManager.addObsEntry embed db name cs).1 name c = 1) ∧
    (KnowledgeGraphManager.addObsEntry embed db name cs).1.dim = db.dim := by
  obtain ⟨hwfR, hres, hkeep, hother, hrelsR, hobsR, hvecsR, hsupR, hfreshR, hbackR, hmonoR,
    hdimR⟩ := getOrCreate_spec db hwf name "Unknown"
  have hent : ∃ e ∈ (SqliteGraphRepository.getOrCreateEntityId db name "Unknown").1.entities,
      (SqliteGraphRepository.getOrCreateEntityId db name "Unknown").2 = e.id :=
    getEntityId_some_mem hres
  obtain ⟨hwfL, hentL, hrelsL, hvecsL, hdimL, hpresL, hmemL, hndL, hsubL⟩ :=
    insertObsLoop_spec cs (SqliteGraphRepository.getOrCreateEntityId db name "Unknown").1
      (SqliteGraphRepository.getOrCreateEntityId db name "Unknown").2 hwfR hent
  have hbridge := getOrCreate_obsPresent db hwf name "Unknown"
  have hrows : ∀ r ∈ (List.zipWith (fun (p : ℕ × String) emb =>
      { observationId := p.1,
        entityId := (SqliteGraphRepository.getOrCreateEntityId db name "Unknown").2,
        embedding := emb : VecRow })
      (KnowledgeGraphManager.insertObsLoop
        (SqliteGraphRepository.getOrCreateEntityId db name "Unknown").1
        (SqliteGraphRepository.getOrCreateEntityId db name "Unknown").2 cs).2
      (((KnowledgeGraphManager.insertObsLoop
        (SqliteGraphRepository.getOrCreateEntityId db name "Unknown").1
        (SqliteGraphRepository.getOrCreateEntityId db name "Unknown").2 cs).2.map
          (·.2)).map embed)),
      r.embedding.length = (KnowledgeGraphManager.insertObsLoop
        (SqliteGraphRepository.getOrCreateEntityId db name "Unknown").1
        (SqliteGraphRepository.getOrCreateEntityId db name "Unknown").2 cs).1.dim := by
    intro r hr
    rw [vecRows_map] at hr
    obtain ⟨p, hp, rfl⟩ := List.mem_map.mp hr
    show (embed p.2).length = _
    rw [hdim p.2, hdimL, hdimR]
  have hbase : ∀ c ∈ cs, obsCountName (KnowledgeGraphManager.insertObsLoop
      (SqliteGraphRepository.getOrCreateEntityId db name "Unknown").1
      (SqliteGraphRepository.getOrCreateEntityId db name "Unknown").2 cs).1 name c = 1 := by
    intro c hc
    have hgid : SqliteGraphRepository.getEntityId (KnowledgeGraphManager.insertObsLoop
        (SqliteGraphRepository.getOrCreateEntityId db name "Unknown").1
        (SqliteGraphRepository.getOrCreateEntityId db name "Unknown").2 cs).1 name =
        some (SqliteGraphRepository.getOrCreateEntityId db name "Unknown").2 := by
      rw [getEntityId_only_entities hentL name, hres]
    unfold obsCountName
    rw [hgid]
    exact obsCount_one_of_wf hwfL
      ((hpresL (SqliteGraphRepository.getOrCreateEntityId db name "Unknown").2 c).mpr
        (Or.inr ⟨rfl, hc⟩))
  rw [addObsEntry_eq embed db name cs]
  refine ⟨?_, ?_, rfl, ?_, ?_, hndL, hsubL, ?_, ?_⟩
  · exact WF_transfer hwfL (insertObservationVectors_state _ _).1
      (insertObservationVectors_state _ _).2.1 (insertObservationVectors_state _ _).2.2.1
      (insertObservationVectors_state _ _).2.2.2.1 (insertObservationVectors_state _ _).2.2.2.2.1
  · exact insertObservationVectors_ok hrows
  · rcases (KnowledgeGraphManager.insertObsLoop
        (SqliteGraphRepository.getOrCreateEntityId db name "Unknown").1
        (SqliteGraphRepository.getOrCreateEntityId db name "Unknown").2 cs).2 with _ | ⟨p, ps⟩
    · rfl
    · rfl
  · intro c
    refine Iff.trans (hmemL c) ?_
    constructor
    · rintro ⟨h1, h2⟩
      exact ⟨h1, fun hp => h2 ((hbridge c).mpr hp)⟩
    · rintro ⟨h1, h2⟩
      exact ⟨h1, fun hp => h2 ((hbridge c).mp hp)⟩
  · intro c hc
    exact (obsCountName_congr (insertObservationVectors_state _ _).1
      (insertObservationVectors_state _ _).2.1 name c).trans (hbase c hc)
  · exact (insertObservationVectors_state _ _).2.2.2.2.2.trans (hdimL.trans hdimR)

theorem addObsResult_eta (r : KnowledgeGraphManager.AddObsResult) (n : String)
    (h : r.entityName = n) :
    r = { entityName := n, addedObservations := r.addedObservations } := by
  cases r
  cases h
  rfl

/-- C1: for an `addObservations` entry `(entityName, contents)`, inserting
an already-stored (entity, content) pair is a no-op — afterwards the pair
is stored exactly once — the returned `addedObservations` is exactly the
subset of `contents` that was newly inserted (without duplicates, in input
order), and the embedding function is invoked exactly once, on exactly that
newly inserted subset (so re-inserted, unchanged content is never
re-embedded), or not at all when nothing was inserted. -/
theorem C1_addObservations_spec (embed : String → List ℚ) (db : DB) (hwf : WF db)
    (hdim : ∀ s, (embed s).length = db.dim) (name : String) (cs : List String) :
    ∃ db' added,
      KnowledgeGraphManager.addObservations embed db [(name, cs)] =
        (db', .ok [{ entityName := name, addedObservations := added }],
         if added.isEmpty then [] else [added]) ∧
      (∀ c, c ∈ added ↔ c ∈ cs ∧ ¬ ObsPresentName db name c) ∧
      (∀ c, ObsPresentName db name c → c ∉ added) ∧
      added.Nodup ∧
      added.Sublist cs ∧
      (∀ c ∈ cs, obsCountName db' name c = 1) := by
  obtain ⟨hwfE, herr, hname, hlog, hmem, hnd, hsub, hcount, hdimE⟩ :=
    addObsEntry_spec embed db hwf hdim name cs
  refine ⟨(KnowledgeGraphManager.addObsEntry embed db name cs).1,
    (KnowledgeGraphManager.addObsEntry embed db name cs).2.1.addedObservations,
    ?_, hmem, ?_, hnd, hsub, hcount⟩
  · simp only [KnowledgeGraphManager.addObservations]
    rw [herr]
    show ((KnowledgeGraphManager.addObsEntry embed db name cs).1,
          Except.ok [(KnowledgeGraphManager.addObsEntry embed db name cs).2.1],
          (KnowledgeGraphManager.addObsEntry embed db name cs).2.2.1 ++ []) = _
    rw [addObsResult_eta _ name hname, List.append_nil, hlog]
  · intro c hp hcmem
    exact ((hmem c).mp hcmem).2 hp

/-- Witness for C1: on an empty store with declared dimension 2 and a
constant length-2 embedder, adding `["x", "x"]` to entity `"A"` satisfies
the full specification (in particular the duplicate is inserted and
embedded only once and is stored exactly once). -/
theorem C1_witness :
    ∃ db' added,
      KnowledgeGraphManager.addObservations (fun _ => [0, 0])
        { dim := 2 : DB } [("A", ["x", "x"])] =
        (db', .ok [{ entityName := "A", addedObservations := added }],
         if added.isEmpty then [] else [added]) ∧
      (∀ c, c ∈ added ↔ c ∈ ["x", "x"] ∧
        ¬ ObsPresentName { dim := 2 : DB } "A" c) ∧
      (∀ c, ObsPresentName { dim := 2 : DB } "A" c → c ∉ added) ∧
      added.Nodup ∧
      added.Sublist ["x", "x"] ∧
      (∀ c ∈ ["x", "x"], obsCountName db' "A" c = 1) :=
  C1_addObservations_spec (fun _ => [0, 0]) { dim := 2 : DB }
    (by constructor <;> decide) (fun _ => rfl) "A" ["x", "x"]

/-! ## C5: temporal score (corrected) -/

/-- Counterexample for C5 as stated: with a missing or invalid created
date and no last access, `getTemporalScore` returns `none` (the JS `NaN`
propagated through `Math.exp` and `Math.min`), not the neutral score `1.0`
the specification claims for missing/invalid dates. -/
theorem C5_counterexample :
    getTemporalScore (fun q : ℚ => Real.exp q) 0 none none defaultTemporal = none ∧
    getTemporalScore (fun q : ℚ => Real.exp q) 0 none none defaultTemporal ≠ some 1 :=
  ⟨rfl, fun h => Option.noConfusion h⟩

/-- C5 (amended): for valid dates `getTemporalScore` computes
`min(exp(-0.693 · age/halfLifeDays) · recencyMultiplier, recencyBoost)`
where `age` is the days since `max(createdAt, lastAccessed)` and the boost
multiplier applies exactly when `lastAccessed` is strictly within
`recencyThreshold` days (the code uses the literal `0.693`, which is within
`1/2000` of `ln 2`); an item created and last accessed now scores exactly
the recency-boost ceiling `1.2`; an item whose age equals the default
half-life of 30 days and that was never accessed scores its pre-boost
decay factor `exp(-0.693)`, which is within `1/100` of `0.5`; but a
missing or invalid created date with no last access yields `none` (JS
`NaN`), not the neutral `1.0` the specification claims. -/
theorem C5_temporal_score_spec :
    (∀ (now c la : ℚ) (cfg : TemporalConfig),
      getTemporalScore (fun q : ℚ => Real.exp q) now (some c) (some (some la)) cfg =
        some (min (Real.exp (((-(693/1000) * ((now - max c la) / msPerDay) /
            cfg.halfLifeDays : ℚ) : ℝ)) *
          (if (now - la) / msPerDay < cfg.recencyThreshold then (cfg.recencyBoost : ℝ) else 1))
          (cfg.recencyBoost : ℝ))) ∧
    |(693/1000 : ℝ) - Real.log 2| < 1/2000 ∧
    (∀ now : ℚ,
      getTemporalScore (fun q : ℚ => Real.exp q) now (some now) (some (some now))
        defaultTemporal = some ((6/5 : ℝ))) ∧
    (∀ now : ℚ,
      getTemporalScore (fun q : ℚ => Real.exp q) now (some (now - 30 * msPerDay)) none
        defaultTemporal = some (Real.exp (-(693/1000)))) ∧
    |Real.exp (-(693/1000)) - (1/2 : ℝ)| < 1/100 ∧
    (∀ now : ℚ,
      getTemporalScore (fun q : ℚ => Real.exp q) now none none defaultTemporal = none) := by
  have hd1 : (0 : ℝ) < Real.log 2 - 693/1000 := by
    have := Real.log_two_gt_d9
    norm_num at this ⊢
    linarith
  have hd2 : Real.log 2 - 693/1000 < 1/2000 := by
    have := Real.log_two_lt_d9
    norm_num at this ⊢
    linarith
  have hexp : Real.exp (-(693/1000)) = Real.exp (Real.log 2 - 693/1000) / 2 := by
    rw [show (-(693/1000) : ℝ) = (Real.log 2 - 693/1000) - Real.log 2 from by ring,
      Real.exp_sub, Real.exp_log (by norm_num : (0:ℝ) < 2)]
  have hub : Real.exp (Real.log 2 - 693/1000) ≤ 1 + 2 * (Real.log 2 - 693/1000) := by
    have h := @Real.exp_bound' (Real.log 2 - 693/1000) hd1.le (by linarith) 1 one_pos
    simp [Finset.sum_range_succ] at h
    linarith
  have hlb : 1 + (Real.log 2 - 693/1000) ≤ Real.exp (Real.log 2 - 693/1000) := by
    have := Real.add_one_le_exp (Real.log 2 - 693/1000)
    linarith
  refine ⟨?_, ?_, ?_, ?_, ?_, fun now => rfl⟩
  · intro now c la cfg
    show (match (if c < la then some la else some c : Option ℚ) with
      | none => (none : Option ℝ)
      | some r =>
        some (min (Real.exp ((-(693/1000) * ((now - r) / msPerDay) /
            cfg.halfLifeDays : ℚ) : ℝ) *
          (if decide ((now - la) / msPerDay < cfg.recencyThreshold) = true
           then (cfg.recencyBoost : ℝ) else 1))
          (cfg.recencyBoost : ℝ))) = _
    by_cases hcla : c < la <;>
      by_cases hb : (now - la) / msPerDay < cfg.recencyThreshold
    · rw [if_pos hcla]
      show some (min (Real.exp ((-(693/1000) * ((now - la) / msPerDay) /
          cfg.halfLifeDays : ℚ) : ℝ) *
        (if decide ((now - la) / msPerDay < cfg.recencyThreshold) = true
         then (cfg.recencyBoost : ℝ) else 1)) (cfg.recencyBoost : ℝ)) = _
      rw [if_pos (decide_eq_true hb), if_pos hb, max_eq_right hcla.le]
    · rw [if_pos hcla]
      show some (min (Real.exp ((-(693/1000) * ((now - la) / msPerDay) /
          cfg.halfLifeDays : ℚ) : ℝ) *
        (if decide ((now - la) / msPerDay < cfg.recencyThreshold) = true
         then (cfg.recencyBoost : ℝ) else 1)) (cfg.recencyBoost : ℝ)) = _
      rw [if_neg (fun hh => hb (of_decide_eq_true hh)), if_neg hb, max_eq_right hcla.le]
    · rw [if_neg hcla]
      show some (min (Real.exp ((-(693/1000) * ((now - c) / msPerDay) /
          cfg.halfLifeDays : ℚ) : ℝ) *
        (if decide ((now - la) / msPerDay < cfg.recencyThreshold) = true
         then (cfg.recencyBoost : ℝ) else 1)) (cfg.recencyBoost : ℝ)) = _
      rw [if_pos (decide_eq_true hb), if_pos hb, max_eq_left (not_lt.mp hcla)]
    · rw [if_neg hcla]
      show some (min (Real.exp ((-(693/1000) * ((now - c) / msPerDay) /
          cfg.halfLifeDays : ℚ) : ℝ) *
        (if decide ((now - la) / msPerDay < cfg.recencyThreshold) = true
         then (cfg.recencyBoost : ℝ) else 1)) (cfg.recencyBoost : ℝ)) = _
      rw [if_neg (fun hh => hb (of_decide_eq_true hh)), if_neg hb,
        max_eq_left (not_lt.mp hcla)]
  · rw [abs_lt]
    constructor <;> linarith
  · intro now
    show (match (if now < now then some now else some now : Option ℚ) with
      | none => (none : Option ℝ)
      | some r =>
        some (min (Real.exp ((-(693/1000) * ((now - r) / msPerDay) /
            defaultTemporal.halfLifeDays : ℚ) : ℝ) *
          (if decide ((now - now) / msPerDay < defaultTemporal.recencyThreshold) = true
           then (defaultTemporal.recencyBoost : ℝ) else 1))
          (defaultTemporal.recencyBoost : ℝ))) = _
    rw [if_neg (lt_irrefl now)]
    show some (min (Real.exp ((-(693/1000) * ((now - now) / msPerDay) /
        defaultTemporal.halfLifeDays : ℚ) : ℝ) *
      (if decide ((now - now) / msPerDay < defaultTemporal.recencyThreshold) = true
       then (defaultTemporal.recencyBoost : ℝ) else 1))
      (defaultTemporal.recencyBoost : ℝ)) = _
    rw [if_pos (decide_eq_true (show (now - now) / msPerDay <
      defaultTemporal.recencyThreshold by rw [sub_self]; norm_num [msPerDay, defaultTemporal]))]
    have h0 : (-(693/1000) * ((now - now) / msPerDay) / defaultTemporal.halfLifeDays : ℚ) = 0 := by
      rw [sub_self]
      norm_num
    rw [h0]
    norm_num [Real.exp_zero, defaultTemporal]
  · intro now
    show (match (if now - 30 * msPerDay < now - 30 * msPerDay
          then some (now - 30 * msPerDay) else some (now - 30 * msPerDay) : Option ℚ) with
      | none => (none : Option ℝ)
      | some r =>
        some (min (Real.exp ((-(693/1000) * ((now - r) / msPerDay) /
            defaultTemporal.halfLifeDays : ℚ) : ℝ) * 1)
          (defaultTemporal.recencyBoost : ℝ))) = _
    rw [if_neg (lt_irrefl (now - 30 * msPerDay))]
    have h1 : (-(693/1000) * ((now - (now - 30 * msPerDay)) / msPerDay) /
        defaultTemporal.halfLifeDays : ℚ) = -(693/1000) := by
      rw [show now - (now - 30 * msPerDay) = 30 * msPerDay from by ring]
      rw [show defaultTemporal.halfLifeDays = (30 : ℚ) from rfl]
      rw [mul_div_assoc, mul_div_cancel_right₀ _ (by norm_num [msPerDay] : msPerDay ≠ 0)]
      ring
    show some (min (Real.exp ((-(693/1000) * ((now - (now - 30 * msPerDay)) / msPerDay) /
        defaultTemporal.halfLifeDays : ℚ) : ℝ) * 1) (defaultTemporal.recencyBoost : ℝ)) = _
    rw [h1]
    have hle : Real.exp (((-(693/1000) : ℚ) : ℝ)) ≤ (defaultTemporal.recencyBoost : ℝ) := by
      refine le_trans (Real.exp_le_one_iff.mpr (by norm_num)) ?_
      norm_num [defaultTemporal]
    rw [mul_one, min_eq_left hle]
    norm_num
  · rw [hexp, abs_lt]
    constructor <;> linarith

/-! ## C3: bounded BFS graph distance -/

theorem reachLe_mono {rels : List (ℕ × ℕ)} {a k z : ℕ} :
    ∀ {m}, k ≤ m → ContextManager.reachLe rels a k z → ContextManager.reachLe rels a m z := by
  intro m
  induction m with
  | zero =>
    intro hk h
    rwa [Nat.le_zero.mp hk] at h
  | succ m ih =>
    intro hk h
    by_cases hkm : k = m + 1
    · rwa [hkm] at h
    · exact Or.inl (ih (Nat.lt_succ_iff.mp (Nat.lt_of_le_of_ne hk hkm)) h)

theorem reach_min {rels : List (ℕ × ℕ)} {a b : ℕ} :
    ∀ {k}, ContextManager.reachLe rels a k b →
      ∃ d, d ≤ k ∧ ContextManager.distEq rels a b d := by
  intro k
  induction k with
  | zero =>
    intro h
    exact ⟨0, le_rfl, h, fun k' hk' => absurd hk' (Nat.not_lt_zero k')⟩
  | succ k ih =>
    intro h
    by_cases hk : ContextManager.reachLe rels a k b
    · obtain ⟨d, hd, hde⟩ := ih hk
      exact ⟨d, Nat.le_succ_of_le hd, hde⟩
    · refine ⟨k + 1, le_rfl, h, ?_⟩
      intro k' hk' hr
      exact hk (reachLe_mono (Nat.lt_succ_iff.mp hk') hr)

theorem distEq_pred {rels : List (ℕ × ℕ)} {a b d : ℕ}
    (h : ContextManager.distEq rels a b (d + 1)) :
    ∃ z, ContextManager.reachLe rels a d z ∧ ContextManager.Edge rels z b := by
  rcases (h.1 : ContextManager.reachLe rels a d b ∨
      ∃ z, ContextManager.reachLe rels a d z ∧ ContextManager.Edge rels z b) with h1 | h1
  · exact absurd h1 (h.2 d (Nat.lt_succ_self d))
  · exact h1

theorem distEq_unique {rels : List (ℕ × ℕ)} {a b d d' : ℕ}
    (h : ContextManager.distEq rels a b d) (h' : ContextManager.distEq rels a b d') :
    d = d' := by
  rcases Nat.lt_trichotomy d d' with hlt | heq | hgt
  · exact absurd h.1 (h'.2 d hlt)
  · exact heq
  · exact absurd h'.1 (h.2 d' hgt)

theorem distEq_pos {rels : List (ℕ × ℕ)} {a b d : ℕ}
    (h : ContextManager.distEq rels a b d) (hne : b ≠ a) : 1 ≤ d := by
  rcases Nat.eq_zero_or_pos d with rfl | h1
  · exact absurd (h.1 : b = a) hne
  · exact h1

theorem adjOf_mem_iff (rels : List (ℕ × ℕ)) (x y : ℕ) :
    y ∈ ContextManager.adjOf rels x ↔ ContextManager.Edge rels x y := by
  unfold ContextManager.adjOf ContextManager.Edge
  rw [List.mem_append]
  constructor
  · rintro (h | h)
    · rw [List.mem_map] at h
      obtain ⟨p, hp, rfl⟩ := h
      rw [List.mem_filter] at hp
      have h1 : p.1 = x := by simpa using hp.2
      left
      have h2 : (x, p.2) = p := by rw [← h1]
      rw [h2]
      exact hp.1
    · rw [List.mem_map] at h
      obtain ⟨p, hp, rfl⟩ := h
      rw [List.mem_filter] at hp
      have h1 : p.2 = x := by simpa using hp.2
      right
      have h2 : (p.1, x) = p := by rw [← h1]
      rw [h2]
      exact hp.1
  · rintro (h | h)
    · left
      rw [List.mem_map]
      exact ⟨(x, y), List.mem_filter.mpr ⟨h, by simp⟩, rfl⟩
    · right
      rw [List.mem_map]
      exact ⟨(y, x), List.mem_filter.mpr ⟨h, by simp⟩, rfl⟩

theorem lookupAdj_cons (e : ℕ × List ℕ) (es : ContextManager.AdjCache) (x : ℕ) :
    ContextManager.lookupAdj (e :: es) x =
      if e.1 = x then some e.2 else ContextManager.lookupAdj es x := rfl

theorem fetchAdj_spec {rels : List (ℕ × ℕ)} {c : ContextManager.AdjCache}
    (hok : ContextManager.CacheOK rels c) (x : ℕ) :
    (∀ y, y ∈ (ContextManager.fetchAdj rels c x).1 ↔ ContextManager.Edge rels x y) ∧
    ContextManager.CacheOK rels (ContextManager.fetchAdj rels c x).2 := by
  unfold ContextManager.fetchAdj
  rcases hlk : ContextManager.lookupAdj c x with _ | s
  · refine ⟨fun y => adjOf_mem_iff rels x y, ?_⟩
    intro z s' hz y
    rw [lookupAdj_cons] at hz
    by_cases hxz : x = z
    · rw [if_pos hxz] at hz
      injection hz with hz'
      rw [← hz', ← hxz]
      exact adjOf_mem_iff rels x y
    · rw [if_neg hxz] at hz
      exact hok z s' hz y
  · exact ⟨fun y => hok x s hlk y, hok⟩

theorem pushAll_spec (D : ℕ) :
    ∀ (ys : List ℕ) (v : Finset ℕ) (q : List (ℕ × ℕ)),
    (ContextManager.pushAll D ys v q).1 = v ∪ ys.toFinset ∧
    ∃ t, (ContextManager.pushAll D ys v q).2 = q ++ t ∧
      (∀ p ∈ t, p.2 = D ∧ p.1 ∈ ys ∧ p.1 ∉ v) ∧
      (∀ y ∈ ys, y ∉ v → (y, D) ∈ t) := by
  intro ys
  induction ys with
  | nil =>
    intro v q
    refine ⟨by simp [ContextManager.pushAll], [], by simp [ContextManager.pushAll], ?_, ?_⟩
    · intro p hp
      simp at hp
    · intro y hy
      simp at hy
  | cons y ys ih =>
    intro v q
    by_cases hv : y ∈ v
    · have heq : ContextManager.pushAll D (y :: ys) v q =
          ContextManager.pushAll D ys v q := by
        rw [ContextManager.pushAll, if_pos hv]
      rw [heq]
      obtain ⟨h1, t, ht, hprop, hcomp⟩ := ih v q
      refine ⟨?_, t, ht, ?_, ?_⟩
      · rw [h1]
        ext w
        simp only [Finset.mem_union, List.mem_toFinset, List.mem_cons]
        constructor
        · rintro (h | h)
          · exact Or.inl h
          · exact Or.inr (Or.inr h)
        · rintro (h | h | h)
          · exact Or.inl h
          · exact Or.inl (h ▸ hv)
          · exact Or.inr h
      · intro p hp
        obtain ⟨h2, h3, h4⟩ := hprop p hp
        exact ⟨h2, List.mem_cons_of_mem _ h3, h4⟩
      · intro z hz hznv
        rcases List.mem_cons.mp hz with rfl | hz'
        · exact absurd hv hznv
        · exact hcomp z hz' hznv
    · have heq : ContextManager.pushAll D (y :: ys) v q =
          ContextManager.pushAll D ys (insert y v) (q ++ [(y, D)]) := by
        rw [ContextManager.pushAll, if_neg hv]
      rw [heq]
      obtain ⟨h1, t, ht, hprop, hcomp⟩ := ih (insert y v) (q ++ [(y, D)])
      refine ⟨?_, (y, D) :: t, ?_, ?_, ?_⟩
      · rw [h1]
        ext w
        simp only [Finset.mem_union, Finset.mem_insert, List.mem_toFinset, List.mem_cons]
        tauto
      · rw [ht, List.append_assoc]
        rfl
      · intro p hp
        rcases List.mem_cons.mp hp with rfl | hp'
        · exact ⟨rfl, List.mem_cons_self _ _, hv⟩
        · obtain ⟨h2, h3, h4⟩ := hprop p hp'
          exact ⟨h2, List.mem_cons_of_mem _ h3,
            fun hpv => h4 (Finset.mem_insert_of_mem hpv)⟩
      · intro z hz hznv
        rcases List.mem_cons.mp hz with rfl | hz'
        · exact List.mem_cons_self _ _
        · by_cases hzy : z = y
          · rw [hzy]
            exact List.mem_cons_self _ _
          · have hzv : z ∉ insert y v := by
              rw [Finset.mem_insert]
              rintro (rfl | h)
              · exact hzy rfl
              · exact hznv h
            exact List.mem_cons_of_mem _ (hcomp z hz' hzv)

theorem relNodes_mem : ∀ (l : List (ℕ × ℕ)) (p : ℕ × ℕ), p ∈ l →
    p.1 ∈ ContextManager.relNodes l ∧ p.2 ∈ ContextManager.relNodes l := by
  intro l
  induction l with
  | nil =>
    intro p hp
    simp at hp
  | cons q qs ih =>
    intro p hp
    rcases List.mem_cons.mp hp with h | h
    · subst h
      unfold ContextManager.relNodes
      simp
    · have h2 := ih p h
      unfold ContextManager.relNodes at h2 ⊢
      simp only [List.foldr_cons, Finset.mem_insert]
      exact ⟨Or.inr (Or.inr h2.1), Or.inr (Or.inr h2.2)⟩

theorem adjOf_subset_relNodes : ∀ (l : List (ℕ × ℕ)) (z w : ℕ),
    w ∈ ContextManager.adjOf l z → w ∈ ContextManager.relNodes l := by
  intro l z w hw
  unfold ContextManager.adjOf at hw
  rw [List.mem_append] at hw
  rcases hw with hw | hw
  · rw [List.mem_map] at hw
    obtain ⟨p, hp, rfl⟩ := hw
    rw [List.mem_filter] at hp
    exact (relNodes_mem l p hp.1).2
  · rw [List.mem_map] at hw
    obtain ⟨p, hp, rfl⟩ := hw
    rw [List.mem_filter] at hp
    exact (relNodes_mem l p hp.1).1

theorem lookupAdj_subset_cacheNodes : ∀ (cc : ContextManager.AdjCache) (x₀ : ℕ) (s : List ℕ),
    ContextManager.lookupAdj cc x₀ = some s → ∀ y ∈ s, y ∈ ContextManager.cacheNodes cc := by
  intro cc
  induction cc with
  | nil =>
    intro x₀ s hs
    simp [ContextManager.lookupAdj] at hs
  | cons e es ih =>
    intro x₀ s hs y hy
    rw [lookupAdj_cons] at hs
    by_cases heb : e.1 = x₀
    · rw [if_pos heb] at hs
      obtain rfl : e.2 = s := by injection hs
      unfold ContextManager.cacheNodes
      simp only [List.foldr_cons, Finset.mem_union]
      exact Or.inl (List.mem_toFinset.mpr hy)
    · rw [if_neg heb] at hs
      have h2 := ih x₀ s hs y hy
      unfold ContextManager.cacheNodes
      simp only [List.foldr_cons, Finset.mem_union]
      exact Or.inr h2

theorem bigV_fetchAdj (rels : List (ℕ × ℕ)) (cc : ContextManager.AdjCache) (z : ℕ) :
    ContextManager.bigV rels (ContextManager.fetchAdj rels cc z).2 =
      ContextManager.bigV rels cc ∧
    ∀ y ∈ (ContextManager.fetchAdj rels cc z).1, y ∈ ContextManager.bigV rels cc := by
  unfold ContextManager.fetchAdj
  rcases hlk : ContextManager.lookupAdj cc z with _ | s
  · refine ⟨?_, ?_⟩
    · simp only
      unfold ContextManager.bigV
      have h1 : ContextManager.cacheNodes ((z, ContextManager.adjOf rels z) :: cc) =
          (ContextManager.adjOf rels z).toFinset ∪ ContextManager.cacheNodes cc := rfl
      rw [h1]
      have hsub : (ContextManager.adjOf rels z).toFinset ⊆ ContextManager.relNodes rels := by
        intro w hw
        exact adjOf_subset_relNodes rels z w (List.mem_toFinset.mp hw)
      ext w
      simp only [Finset.mem_union]
      constructor
      · rintro (h | h | h)
        · exact Or.inl h
        · exact Or.inl (hsub h)
        · exact Or.inr h
      · rintro (h | h)
        · exact Or.inl h
        · exact Or.inr (Or.inr h)
    · intro y hy
      simp only at hy
      unfold ContextManager.bigV
      rw [Finset.mem_union]
      exact Or.inl (adjOf_subset_relNodes rels z y hy)
  · refine ⟨by simp only, ?_⟩
    intro y hy
    simp only at hy
    unfold ContextManager.bigV
    rw [Finset.mem_union]
    exact Or.inr (lookupAdj_subset_cacheNodes cc z s hlk y hy)

theorem pushAll_measure (S : Finset ℕ) (D : ℕ) :
    ∀ (ys : List ℕ) (v : Finset ℕ) (q : List (ℕ × ℕ)), (∀ y ∈ ys, y ∈ S) →
    (S \ (ContextManager.pushAll D ys v q).1).card +
      ((ContextManager.pushAll D ys v q).2).length ≤ (S \ v).card + q.length := by
  intro ys
  induction ys with
  | nil =>
    intro v q _
    simp [ContextManager.pushAll]
  | cons y ys ih =>
    intro v q hys
    have hyS : y ∈ S := hys y (List.mem_cons_self _ _)
    have hys' : ∀ z ∈ ys, z ∈ S := fun z hz => hys z (List.mem_cons_of_mem _ hz)
    by_cases hv : y ∈ v
    · rw [ContextManager.pushAll, if_pos hv]
      exact ih v q hys'
    · rw [ContextManager.pushAll, if_neg hv]
      have h1 := ih (insert y v) (q ++ [(y, D)]) hys'
      have h2 : (S \ insert y v).card + 1 = (S \ v).card := by
        rw [Finset.sdiff_insert]
        exact Finset.card_erase_add_one (Finset.mem_sdiff.mpr ⟨hyS, hv⟩)
      have h3 : (q ++ [(y, D)]).length = q.length + 1 := by simp
      rw [h3] at h1
      omega

theorem bfs_measure (rels : List (ℕ × ℕ)) (acache : ContextManager.AdjCache) (x d : ℕ)
    (visited : Finset ℕ) (rest : List (ℕ × ℕ)) :
    (ContextManager.bigV rels (ContextManager.fetchAdj rels acache x).2 \
      (ContextManager.pushAll (d + 1) (ContextManager.fetchAdj rels acache x).1
        visited rest).1).card +
      ((ContextManager.pushAll (d + 1) (ContextManager.fetchAdj rels acache x).1
        visited rest).2).length <
    (ContextManager.bigV rels acache \ visited).card + ((x, d) :: rest).length := by
  have hfe := bigV_fetchAdj rels acache x
  have key := pushAll_measure (ContextManager.bigV rels acache) (d + 1)
    (ContextManager.fetchAdj rels acache x).1 visited rest hfe.2
  rw [hfe.1, List.length_cons]
  omega

theorem bfsLoop_nil (rels : List (ℕ × ℕ)) (toId maxDepth : ℕ)
    (acache : ContextManager.AdjCache) (visited : Finset ℕ) :
    ContextManager.bfsLoop rels toId maxDepth acache visited [] = (none, acache) := by
  rw [ContextManager.bfsLoop]

theorem bfsLoop_cons (rels : List (ℕ × ℕ)) (toId maxDepth : ℕ)
    (acache : ContextManager.AdjCache) (visited : Finset ℕ) (x d : ℕ)
    (rest : List (ℕ × ℕ)) :
    ContextManager.bfsLoop rels toId maxDepth acache visited ((x, d) :: rest) =
      if maxDepth ≤ d then (none, acache)
      else if toId ∈ (ContextManager.fetchAdj rels acache x).1 then
        (some (d + 1), (ContextManager.fetchAdj rels acache x).2)
      else
        ContextManager.bfsLoop rels toId maxDepth (ContextManager.fetchAdj rels acache x).2
          (ContextManager.pushAll (d + 1) (ContextManager.fetchAdj rels acache x).1
            visited rest).1
          (ContextManager.pushAll (d + 1) (ContextManager.fetchAdj rels acache x).1
            visited rest).2 := by
  rw [ContextManager.bfsLoop]

theorem bfs_exhausted {rels : List (ℕ × ℕ)} {a : ℕ} {exp : Finset ℕ}
    (hcl : ∀ z ∈ exp, ∀ y, ContextManager.Edge rels z y → y ∈ exp) (ha : a ∈ exp) :
    ∀ (k z : ℕ), ContextManager.reachLe rels a k z → z ∈ exp := by
  intro k
  induction k with
  | zero =>
    intro z hz
    exact (hz : z = a) ▸ ha
  | succ k ih =>
    intro z hz
    rcases (hz : ContextManager.reachLe rels a k z ∨
        ∃ w, ContextManager.reachLe rels a k w ∧ ContextManager.Edge rels w z) with
      h | ⟨w, hw, he⟩
    · exact ih z h
    · exact hcl w (ih w hw) z he

theorem no_reach_below {rels : List (ℕ × ℕ)} {a b d₀ : ℕ} {exp : Finset ℕ}
    (h7 : ∀ k < d₀, ∀ z, ContextManager.reachLe rels a k z → z ∈ exp)
    (h8 : ∀ z ∈ exp, ¬ ContextManager.Edge rels z b)
    (hab : a ≠ b) :
    ∀ k, k ≤ d₀ → ¬ ContextManager.reachLe rels a k b := by
  intro k hk hr
  obtain ⟨dm, hdm_le, hdm⟩ := reach_min hr
  have h1 : 1 ≤ dm := distEq_pos hdm (Ne.symm hab)
  obtain ⟨m, rfl⟩ : ∃ m, dm = m + 1 := ⟨dm - 1, by omega⟩
  obtain ⟨z, hz, he⟩ := distEq_pred hdm
  have hm : m < d₀ := by omega
  exact h8 z (h7 m hm z hz) he

theorem distEq_succ_of_edge {rels : List (ℕ × ℕ)} {a x y d₀ : ℕ}
    (hx : ContextManager.distEq rels a x d₀)
    (he : ContextManager.Edge rels x y)
    (hymin : ∀ k, k ≤ d₀ → ¬ ContextManager.reachLe rels a k y) :
    ContextManager.distEq rels a y (d₀ + 1) := by
  refine ⟨Or.inr ⟨x, hx.1, he⟩, ?_⟩
  intro k hk
  exact hymin k (Nat.lt_succ_iff.mp hk)

theorem unvisited_no_reach {rels : List (ℕ × ℕ)} {a y d₀ : ℕ} {exp visited : Finset ℕ}
    (h7 : ∀ k < d₀, ∀ z, ContextManager.reachLe rels a k z → z ∈ exp)
    (h10 : ∀ z ∈ exp, ∀ w, ContextManager.Edge rels z w → w ∈ visited)
    (ha : a ∈ visited) (hy : y ∉ visited) :
    ∀ k, k ≤ d₀ → ¬ ContextManager.reachLe rels a k y := by
  intro k hk hr
  obtain ⟨dm, hdm_le, hdm⟩ := reach_min hr
  rcases Nat.eq_zero_or_pos dm with rfl | h1
  · refine hy ?_
    rw [(hdm.1 : y = a)]
    exact ha
  · obtain ⟨m, rfl⟩ : ∃ m, dm = m + 1 := ⟨dm - 1, by omega⟩
    obtain ⟨z, hz, he⟩ := distEq_pred hdm
    have hm : m < d₀ := by omega
    exact hy (h10 z (h7 m hm z hz) y he)

theorem bfsLoop_empty_case (rels : List (ℕ × ℕ)) (a b n : ℕ)
    (acache : ContextManager.AdjCache) (visited exp : Finset ℕ)
    (hok : ContextManager.CacheOK rels acache)
    (hvis : visited = exp ∪ (([] : List (ℕ × ℕ)).map (·.1)).toFinset)
    (h10 : ∀ z ∈ exp, ∀ y, ContextManager.Edge rels z y → y ∈ visited)
    (hnb : b ∉ visited) (ha : a ∈ visited) :
    (∀ d, (ContextManager.bfsLoop rels b n acache visited []).1 = some d →
      ContextManager.distEq rels a b d ∧ 1 ≤ d ∧ d ≤ n) ∧
    ((ContextManager.bfsLoop rels b n acache visited []).1 = none →
      ∀ k, k ≤ n → ¬ ContextManager.reachLe rels a k b) ∧
    ContextManager.CacheOK rels (ContextManager.bfsLoop rels b n acache visited []).2 := by
  rw [bfsLoop_nil]
  have hve : visited = exp := by
    rw [hvis]
    simp
  refine ⟨fun d hd => Option.noConfusion hd, fun _ k hk hr => ?_, hok⟩
  have hcl : ∀ z ∈ exp, ∀ y, ContextManager.Edge rels z y → y ∈ exp := by
    intro z hz y he
    rw [← hve]
    exact h10 z hz y he
  have hbexp : b ∈ exp := bfs_exhausted hcl (by rw [← hve]; exact ha) k b hr
  rw [← hve] at hbexp
  exact hnb hbexp

/-- Main BFS loop invariant: with a two-level queue of exactly-placed
nodes, every node strictly below the current level expanded, no expanded
node adjacent to the target, and level-completeness, the loop returns the
exact shortest undirected hop count when it is within the bound and
nothing otherwise. -/
theorem bfsLoop_correct (rels : List (ℕ × ℕ)) (a b n : ℕ) (hab : a ≠ b) : ∀ (N : ℕ)
    (acache : ContextManager.AdjCache) (visited exp : Finset ℕ)
    (queue L₁ L₂ : List (ℕ × ℕ)) (d₀ : ℕ),
    (ContextManager.bigV rels acache \ visited).card + queue.length ≤ N →
    queue = L₁ ++ L₂ →
    (∀ p ∈ L₁, p.2 = d₀) →
    (∀ p ∈ L₂, p.2 = d₀ + 1) →
    (L₁ = [] → L₂ = []) →
    ContextManager.CacheOK rels acache →
    visited = exp ∪ (queue.map (·.1)).toFinset →
    (∀ p ∈ queue, ContextManager.distEq rels a p.1 p.2) →
    (∀ k < d₀, ∀ z, ContextManager.reachLe rels a k z → z ∈ exp) →
    (∀ z ∈ exp, ¬ ContextManager.Edge rels z b) →
    (∀ y, ContextManager.reachLe rels a (d₀ + 1) y →
      y ∈ visited ∨ ∃ z, (z, d₀) ∈ queue ∧ ContextManager.Edge rels z y) →
    (∀ z ∈ exp, ∀ w, ContextManager.Edge rels z w → w ∈ visited) →
    b ∉ visited →
    a ∈ visited →
    (∀ d, (ContextManager.bfsLoop rels b n acache visited queue).1 = some d →
      ContextManager.distEq rels a b d ∧ 1 ≤ d ∧ d ≤ n) ∧
    ((ContextManager.bfsLoop rels b n acache visited queue).1 = none →
      ∀ k, k ≤ n → ¬ ContextManager.reachLe rels a k b) ∧
    ContextManager.CacheOK rels (ContextManager.bfsLoop rels b n acache visited queue).2 := by
  intro N
  induction N with
  | zero =>
    intro acache visited exp queue L₁ L₂ d₀ hN hqe hL1 hL2 h14 hok hvis hq6 h7 h8 h9 h10 hnb ha
    have hq : queue = [] := List.length_eq_zero.mp (by omega)
    subst hq
    exact bfsLoop_empty_case rels a b n acache visited exp hok hvis h10 hnb ha
  | succ N ih =>
    intro acache visited exp queue L₁ L₂ d₀ hN hqe hL1 hL2 h14 hok hvis hq6 h7 h8 h9 h10 hnb ha
    rcases queue with _ | ⟨⟨x, d⟩, rest⟩
    · exact bfsLoop_empty_case rels a b n acache visited exp hok hvis h10 hnb ha
    rcases L₁ with _ | ⟨p₁, L₁'⟩
    · rw [h14 rfl] at hqe
      simp at hqe
    rw [List.cons_append] at hqe
    injection hqe with hqe1 hqe2
    have hd : d = d₀ := by
      have h := hL1 p₁ (List.mem_cons_self _ _)
      rw [← hqe1] at h
      exact h
    subst hd
    rw [bfsLoop_cons]
    obtain ⟨hfa_iff, hfa_ok⟩ := fetchAdj_spec hok x
    have hx_dist : ContextManager.distEq rels a x d :=
      hq6 (x, d) (List.mem_cons_self _ _)
    by_cases hnd : n ≤ d
    · rw [if_pos hnd]
      refine ⟨fun d' hd' => Option.noConfusion hd', fun _ k hk hr => ?_, hok⟩
      exact no_reach_below h7 h8 hab k (le_trans hk hnd) hr
    rw [if_neg hnd]
    by_cases hfound : b ∈ (ContextManager.fetchAdj rels acache x).1
    · rw [if_pos hfound]
      refine ⟨?_, fun hnone => Option.noConfusion hnone, hfa_ok⟩
      intro d' hd'
      injection hd' with hd''
      rw [← hd'']
      have hedge : ContextManager.Edge rels x b := (hfa_iff b).mp hfound
      exact ⟨distEq_succ_of_edge hx_dist hedge (no_reach_below h7 h8 hab),
        by omega, by omega⟩
    rw [if_neg hfound]
    set FA := ContextManager.fetchAdj rels acache x with hFA
    set VQ := ContextManager.pushAll (d + 1) FA.1 visited rest with hVQ
    obtain ⟨hP1, t, hPq, hPt, hPc⟩ := pushAll_spec (d + 1) FA.1 visited rest
    rw [← hVQ] at hP1 hPq
    have hxb : ¬ ContextManager.Edge rels x b :=
      fun he => hfound ((hfa_iff b).mpr he)
    have hN' : (ContextManager.bigV rels FA.2 \ VQ.1).card + VQ.2.length ≤ N := by
      have hm := bfs_measure rels acache x d visited rest
      rw [← hFA] at hm
      rw [← hVQ] at hm
      omega
    have hvism : ∀ w, w ∈ VQ.1 ↔ w ∈ visited ∨ w ∈ FA.1 := by
      intro w
      rw [hP1, Finset.mem_union, List.mem_toFinset]
    have hnb' : b ∉ VQ.1 := by
      rw [hvism]
      rintro (h | h)
      · exact hnb h
      · exact hfound h
    have ha' : a ∈ VQ.1 := (hvism a).mpr (Or.inl ha)
    have hvm : ∀ w, w ∈ visited ↔ w ∈ exp ∨ w = x ∨ w ∈ rest.map (·.1) := by
      intro w
      rw [hvis]
      simp only [List.map_cons, List.toFinset_cons, Finset.mem_union, Finset.mem_insert,
        List.mem_toFinset]
    have htdist : ∀ p ∈ t, ContextManager.distEq rels a p.1 (d + 1) := by
      intro p hp
      obtain ⟨hp2, hp1, hpnv⟩ := hPt p hp
      exact distEq_succ_of_edge hx_dist ((hfa_iff p.1).mp hp1)
        (unvisited_no_reach h7 h10 ha hpnv)
    have hq6' : ∀ p ∈ VQ.2, ContextManager.distEq rels a p.1 p.2 := by
      intro p hp
      rw [hPq] at hp
      rcases List.mem_append.mp hp with h | h
      · exact hq6 p (List.mem_cons_of_mem _ h)
      · rw [(hPt p h).1]
        exact htdist p h
    have hvism2 : ∀ w, w ∈ VQ.1 ↔ w = x ∨ w ∈ exp ∨ w ∈ (rest ++ t).map (·.1) := by
      intro w
      rw [hvism w]
      constructor
      · rintro (h | h)
        · rcases (hvm w).mp h with h' | h' | h'
          · exact Or.inr (Or.inl h')
          · exact Or.inl h'
          · refine Or.inr (Or.inr ?_)
            rw [List.map_append, List.mem_append]
            exact Or.inl h'
        · by_cases hwv : w ∈ visited
          · rcases (hvm w).mp hwv with h' | h' | h'
            · exact Or.inr (Or.inl h')
            · exact Or.inl h'
            · refine Or.inr (Or.inr ?_)
              rw [List.map_append, List.mem_append]
              exact Or.inl h'
          · refine Or.inr (Or.inr ?_)
            rw [List.map_append, List.mem_append]
            refine Or.inr ?_
            rw [List.mem_map]
            exact ⟨(w, d + 1), hPc w h hwv, rfl⟩
      · rintro (rfl | h | h)
        · exact Or.inl ((hvm w).mpr (Or.inr (Or.inl rfl)))
        · exact Or.inl ((hvm w).mpr (Or.inl h))
        · rw [List.map_append, List.mem_append] at h
          rcases h with h | h
          · exact Or.inl ((hvm w).mpr (Or.inr (Or.inr h)))
          · rw [List.mem_map] at h
            obtain ⟨p, hp, rfl⟩ := h
            exact Or.inr (hPt p hp).2.1
    have hvis' : VQ.1 = insert x exp ∪ ((VQ.2).map (·.1)).toFinset := by
      ext w
      rw [hvism2 w, hPq]
      simp only [Finset.mem_union, Finset.mem_insert, List.mem_toFinset]
      rw [or_assoc]
    have h10' : ∀ z ∈ insert x exp, ∀ w, ContextManager.Edge rels z w → w ∈ VQ.1 := by
      intro z hz w he
      rcases Finset.mem_insert.mp hz with rfl | hz'
      · exact (hvism w).mpr (Or.inr ((hfa_iff w).mpr he))
      · exact (hvism w).mpr (Or.inl (h10 z hz' w he))
    have h8' : ∀ z ∈ insert x exp, ¬ ContextManager.Edge rels z b := by
      intro z hz
      rcases Finset.mem_insert.mp hz with rfl | hz'
      · exact hxb
      · exact h8 z hz'
    rcases L₁' with _ | ⟨p₂, L₁''⟩
    · -- level shift: the popped node was the last of its level
      have hrest : rest = L₂ := hqe2
      have hrest2 : ∀ p ∈ rest, p.2 = d + 1 := by
        rw [hrest]
        exact hL2
      have hall2 : ∀ p ∈ rest ++ t, p.2 = d + 1 := by
        intro p hp
        rcases List.mem_append.mp hp with h | h
        · exact hrest2 p h
        · exact (hPt p h).1
      have h7' : ∀ k < d + 1, ∀ z, ContextManager.reachLe rels a k z →
          z ∈ insert x exp := by
        intro k hk z hz
        by_cases hkd : k < d
        · exact Finset.mem_insert_of_mem (h7 k hkd z hz)
        · have hkd' : k = d := by omega
          subst hkd'
          rcases Nat.eq_zero_or_pos k with rfl | hd1
          · have hza : z = a := hz
            have hxa : x = a := hx_dist.1
            rw [hza, ← hxa]
            exact Finset.mem_insert_self x exp
          · obtain ⟨m, rfl⟩ : ∃ m, k = m + 1 := ⟨k - 1, by omega⟩
            have hz0 := hz
            rcases (hz : ContextManager.reachLe rels a m z ∨
                ∃ w, ContextManager.reachLe rels a m w ∧
                  ContextManager.Edge rels w z) with h | ⟨w, hw, he⟩
            · exact Finset.mem_insert_of_mem (h7 m (Nat.lt_succ_self m) z h)
            · have hwexp : w ∈ exp := h7 m (Nat.lt_succ_self m) w hw
              have hzv : z ∈ visited := h10 w hwexp z he
              rcases (hvm z).mp hzv with h' | h' | h'
              · exact Finset.mem_insert_of_mem h'
              · rw [h']
                exact Finset.mem_insert_self x exp
              · exfalso
                rw [List.mem_map] at h'
                obtain ⟨p, hp, hpz⟩ := h'
                have hpdist := hq6 p (List.mem_cons_of_mem _ hp)
                rw [hrest2 p hp, hpz] at hpdist
                exact hpdist.2 (m + 1) (Nat.lt_succ_self _) hz0
      have h9x : ∀ y, ContextManager.reachLe rels a (d + 1) y → y ∈ VQ.1 := by
        intro y hy
        rcases h9 y hy with h | ⟨z, hzq, he⟩
        · exact (hvism y).mpr (Or.inl h)
        · rcases List.mem_cons.mp hzq with hzx | hzrest
          · injection hzx with h1 h2
            rw [h1] at he
            exact (hvism y).mpr (Or.inr ((hfa_iff y).mpr he))
          · exfalso
            have h2 : d = d + 1 := hrest2 (z, d) hzrest
            omega
      have h9' : ∀ y, ContextManager.reachLe rels a (d + 1 + 1) y →
          y ∈ VQ.1 ∨ ∃ z, (z, d + 1) ∈ VQ.2 ∧ ContextManager.Edge rels z y := by
        intro y hy
        rcases (hy : ContextManager.reachLe rels a (d + 1) y ∨
            ∃ w, ContextManager.reachLe rels a (d + 1) w ∧
              ContextManager.Edge rels w y) with h | ⟨w, hw, he⟩
        · exact Or.inl (h9x y h)
        · have hwv : w ∈ VQ.1 := h9x w hw
          rcases (hvism2 w).mp hwv with rfl | hwex | hwmap
          · exact Or.inl ((hvism y).mpr (Or.inr ((hfa_iff y).mpr he)))
          · exact Or.inl ((hvism y).mpr (Or.inl (h10 w hwex y he)))
          · rw [List.mem_map] at hwmap
            obtain ⟨p, hp, hpw⟩ := hwmap
            refine Or.inr ⟨w, ?_, he⟩
            have hpe : (w, d + 1) = p := by
              rw [← hpw, ← hall2 p hp]
            rw [hPq, hpe]
            exact hp
      have hq'' : VQ.2 = (L₂ ++ t) ++ [] := by
        rw [hPq, hrest, List.append_nil]
      have hL1'' : ∀ p ∈ L₂ ++ t, p.2 = d + 1 := by
        rw [← hrest]
        exact hall2
      exact ih FA.2 VQ.1 (insert x exp) VQ.2 (L₂ ++ t) [] (d + 1) hN' hq'' hL1''
        (fun p hp => absurd hp (List.not_mem_nil p)) (fun _ => rfl) hfa_ok hvis' hq6'
        h7' h8' h9' h10' hnb' ha'
    · -- same level continues
      have h7' : ∀ k < d, ∀ z, ContextManager.reachLe rels a k z →
          z ∈ insert x exp :=
        fun k hk z hz => Finset.mem_insert_of_mem (h7 k hk z hz)
      have h9' : ∀ y, ContextManager.reachLe rels a (d + 1) y →
          y ∈ VQ.1 ∨ ∃ z, (z, d) ∈ VQ.2 ∧ ContextManager.Edge rels z y := by
        intro y hy
        rcases h9 y hy with h | ⟨z, hzq, he⟩
        · exact Or.inl ((hvism y).mpr (Or.inl h))
        · rcases List.mem_cons.mp hzq with hzx | hzrest
          · injection hzx with h1 h2
            rw [h1] at he
            exact Or.inl ((hvism y).mpr (Or.inr ((hfa_iff y).mpr he)))
          · refine Or.inr ⟨z, ?_, he⟩
            rw [hPq]
            exact List.mem_append_left _ hzrest
      have hq'' : VQ.2 = (p₂ :: L₁'') ++ (L₂ ++ t) := by
        rw [hPq, hqe2, List.append_assoc]
      have hL2'' : ∀ p ∈ L₂ ++ t, p.2 = d + 1 := by
        intro p hp
        rcases List.mem_append.mp hp with h | h
        · exact hL2 p h
        · exact (hPt p h).1
      exact ih FA.2 VQ.1 (insert x exp) VQ.2 (p₂ :: L₁'') (L₂ ++ t) d hN' hq''
        (fun p hp => hL1 p (List.mem_cons_of_mem _ hp)) hL2''
        (fun h => List.noConfusion h) hfa_ok hvis' hq6' h7' h8' h9' h10' hnb' ha'

theorem lookupDist_cons (e : (ℕ × ℕ) × Option ℕ) (es : ContextManager.DistCache)
    (a b : ℕ) :
    ContextManager.lookupDist (e :: es) a b =
      if e.1 = (a, b) then some e.2 else ContextManager.lookupDist es a b := rfl

theorem getDistance_none {dc : ContextManager.DistCache} {f t : ℕ}
    (h : ContextManager.lookupDist dc f t = none) :
    ContextManager.getDistance dc f t = none := by
  unfold ContextManager.getDistance
  rw [h]

theorem calcDist_eq_same {rels : List (ℕ × ℕ)} {c : ContextManager.GraphCache}
    {f t n : ℕ} (h : f = t) :
    ContextManager.calculateGraphDistance rels c f t n = (some 0, c) := by
  unfold ContextManager.calculateGraphDistance
  rw [if_pos h]

theorem calcDist_eq_miss {rels : List (ℕ × ℕ)} {c : ContextManager.GraphCache}
    {f t n : ℕ} (hne : f ≠ t)
    (hmiss : ContextManager.getDistance c.distC f t = none) :
    ContextManager.calculateGraphDistance rels c f t n =
      (match (ContextManager.bfsLoop rels t n c.adjC {f} [(f, 0)]).1 with
       | some d =>
         (some d,
          { adjC := (ContextManager.bfsLoop rels t n c.adjC {f} [(f, 0)]).2,
            distC := ((t, f), some d) :: ((f, t), some d) :: c.distC })
       | none =>
         (none,
          { adjC := (ContextManager.bfsLoop rels t n c.adjC {f} [(f, 0)]).2,
            distC := ((f, t), (none : Option ℕ)) :: c.distC })) := by
  unfold ContextManager.calculateGraphDistance
  rw [if_neg hne, hmiss]

/-- C3: with a consistent adjacency cache and no distance-cache entry for
the pair, `calculateGraphDistance(a, b, maxDepth)` returns 0 when `a = b`;
a returned distance is the exact shortest undirected hop count, is at most
`maxDepth`, and is cached symmetrically under both `(a, b)` and `(b, a)`;
a `null` return means no path of length at most `maxDepth` exists
(unreachable pairs and pairs farther than `maxDepth` are indistinguishable);
and conversely whenever the exact shortest hop count is at most `maxDepth`
it is returned. -/
theorem C3_graph_distance (rels : List (ℕ × ℕ)) (c : ContextManager.GraphCache)
    (a b n : ℕ) (hok : ContextManager.CacheOK rels c.adjC)
    (hmiss : ContextManager.lookupDist c.distC a b = none) :
    (a = b → ContextManager.calculateGraphDistance rels c a b n = (some 0, c)) ∧
    (∀ d, (ContextManager.calculateGraphDistance rels c a b n).1 = some d → a ≠ b →
      ContextManager.distEq rels a b d ∧ d ≤ n ∧
      ContextManager.lookupDist
        (ContextManager.calculateGraphDistance rels c a b n).2.distC a b = some (some d) ∧
      ContextManager.lookupDist
        (ContextManager.calculateGraphDistance rels c a b n).2.distC b a = some (some d)) ∧
    ((ContextManager.calculateGraphDistance rels c a b n).1 = none →
      ∀ k, k ≤ n → ¬ ContextManager.reachLe rels a k b) ∧
    (a ≠ b → ∀ d, ContextManager.distEq rels a b d → d ≤ n →
      (ContextManager.calculateGraphDistance rels c a b n).1 = some d) := by
  by_cases hab : a = b
  · refine ⟨fun _ => calcDist_eq_same hab, fun d hd hab' => absurd hab hab', ?_,
      fun hab' => absurd hab hab'⟩
    rw [calcDist_eq_same hab]
    intro hnone
    exact absurd hnone (fun h => Option.noConfusion h)
  · have hg := getDistance_none hmiss
    obtain ⟨hC1, hC2, hC3⟩ := bfsLoop_correct rels a b n hab
      ((ContextManager.bigV rels c.adjC \ {a}).card + 1)
      c.adjC {a} ∅ [(a, 0)] [(a, 0)] [] 0 le_rfl rfl
      (by
        intro p hp
        rw [List.mem_singleton] at hp
        rw [hp])
      (fun p hp => absurd hp (List.not_mem_nil p))
      (fun _ => rfl)
      hok
      (by simp)
      (by
        intro p hp
        rw [List.mem_singleton] at hp
        subst hp
        exact ⟨rfl, fun k hk => absurd hk (Nat.not_lt_zero k)⟩)
      (fun k hk => absurd hk (Nat.not_lt_zero k))
      (fun z hz => absurd hz (Finset.not_mem_empty z))
      (by
        intro y hy
        rcases (hy : ContextManager.reachLe rels a 0 y ∨
            ∃ z, ContextManager.reachLe rels a 0 z ∧
              ContextManager.Edge rels z y) with h | ⟨z, hz, he⟩
        · left
          rw [Finset.mem_singleton]
          exact h
        · right
          refine ⟨a, List.mem_singleton_self _, ?_⟩
          rw [← (hz : z = a)]
          exact he)
      (fun z hz => absurd hz (Finset.not_mem_empty z))
      (by
        rw [Finset.mem_singleton]
        exact fun h => hab h.symm)
      (Finset.mem_singleton_self a)
    rw [calcDist_eq_miss hab hg]
    rcases hres : (ContextManager.bfsLoop rels b n c.adjC {a} [(a, 0)]).1 with _ | d
    · refine ⟨fun h => absurd h hab, fun d' hd' _ => Option.noConfusion hd',
        fun _ => hC2 hres, ?_⟩
      intro hab' d' hde' hdn'
      exact absurd hde'.1 (hC2 hres d' hdn')
    · obtain ⟨hde, h1le, hlen⟩ := hC1 d hres
      refine ⟨fun h => absurd h hab, ?_, fun h => Option.noConfusion h, ?_⟩
      · intro d' hd' _
        injection hd' with hdd
        rw [← hdd]
        refine ⟨hde, hlen, ?_, ?_⟩
        · rw [lookupDist_cons,
            if_neg (show ¬((b, a) = (a, b)) from fun h => hab (Prod.mk.inj h).2),
            lookupDist_cons, if_pos rfl]
        · rw [lookupDist_cons, if_pos rfl]
      · intro hab' d' hde' hdn'
        have hdd : d = d' := distEq_unique hde hde'
        rw [hdd]

/-- Witness for C3: in the one-relation graph `1 — 2` with cold caches and
the default bound 3, the distance from 1 to 2 is the exact hop count 1,
cached under both `(1, 2)` and `(2, 1)`, and a `null` result would mean no
path within the bound. -/
theorem C3_witness :
    (((1 : ℕ) = 2 → ContextManager.calculateGraphDistance [(1, 2)]
        { adjC := [], distC := [] } 1 2 3 =
        (some 0, { adjC := [], distC := [] })) ∧
    (∀ d, (ContextManager.calculateGraphDistance [(1, 2)]
        { adjC := [], distC := [] } 1 2 3).1 = some d → (1 : ℕ) ≠ 2 →
      ContextManager.distEq [(1, 2)] 1 2 d ∧ d ≤ 3 ∧
      ContextManager.lookupDist (ContextManager.calculateGraphDistance [(1, 2)]
        { adjC := [], distC := [] } 1 2 3).2.distC 1 2 = some (some d) ∧
      ContextManager.lookupDist (ContextManager.calculateGraphDistance [(1, 2)]
        { adjC := [], distC := [] } 1 2 3).2.distC 2 1 = some (some d)) ∧
    ((ContextManager.calculateGraphDistance [(1, 2)]
        { adjC := [], distC := [] } 1 2 3).1 = none →
      ∀ k, k ≤ 3 → ¬ ContextManager.reachLe [(1, 2)] 1 k 2) ∧
    ((1 : ℕ) ≠ 2 → ∀ d, ContextManager.distEq [(1, 2)] 1 2 d → d ≤ 3 →
      (ContextManager.calculateGraphDistance [(1, 2)]
        { adjC := [], distC := [] } 1 2 3).1 = some d)) :=
  C3_graph_distance [(1, 2)] { adjC := [], distC := [] } 1 2 3
    (fun _ _ h => Option.noConfusion h) rfl

end Memento
